import Mathlib

/-!
# Tile scene and rendering pipeline of `src/js/canvas.js`

A shallow embedding of the tile layout, the arrow-key navigation and the 3D
transform and projection functions of `canvas.js`.

Modelling conventions.

* Tile coordinates are JavaScript numbers that only ever hold integers (sums and
  differences of `squareSize`), so they are modelled by `Int`.
* The closure variable `squareSize` (50 in the source) is an explicit argument
  of every function that reads it.
* `Math.random()` is an input: every call consumes one rational number from a
  list of draws.
* Reading a property of `undefined` throws a `TypeError`; functions that can do
  so return `Option`, with `none` for the throw.
* The geometry functions are written over an arbitrary field, with `Math.cos`
  and `Math.sin` passed as arguments; the theorems instantiate them with the
  real numbers and the real cosine and sine.
* Where rounding decides a property (the scaling of `dimetricProjection`), the
  function is also run over `F64`, the binary64 numbers with every operation
  rounded to nearest, ties to even.
-/

namespace Canvas

/-! ## Data model -/

/-- One entry of the `squares` array: `{ relativeX, relativeY, color }`, where
`color` is absent on generated tiles. -/
structure Square where
  relativeX : Int
  relativeY : Int
  color : Option String := none
deriving DecidableEq, Repr

/-- The part of the closure state that navigation reads and writes: the
`squares` array and `currentTargetSquareIndex`. -/
structure Scene where
  squares : List Square
  currentTargetSquareIndex : Int
deriving DecidableEq, Repr

/-- Array read `arr[i]`: `none` stands for `undefined` (index negative or past
the end). -/
def getAt {α : Type} (arr : List α) (i : Int) : Option α :=
  if 0 ≤ i then arr[i.toNat]? else none

/-- The builtin `Array.prototype.findIndex`: index of the first element
satisfying `p`, or `-1`. -/
def findIndex {α : Type} (p : α → Bool) (arr : List α) : Int :=
  if arr.any p then (arr.findIdx p : Int) else -1

/-! ## Navigation -/

/-- Source `squareExistsAtPosition(x, y)`. -/
def squareExistsAtPosition (squares : List Square) (x y : Int) : Bool :=
  squares.any (fun square => square.relativeX == x && square.relativeY == y)

/-- Source `addNewSquareAtPosition(x, y)`: pushes a red square. -/
def addNewSquareAtPosition (squares : List Square) (x y : Int) : List Square :=
  squares ++ [{ relativeX := x, relativeY := y, color := some "red" }]

/-- Source `updateAndDrawCubeOnSquare(squareIndex, direction)`, restricted to
its effect on `squares` and `currentTargetSquareIndex` (the trailing
`drawSquares()` writes neither). `none` is the `TypeError` raised by
`currentSquare.relativeX` when `squares[currentTargetSquareIndex]` is
`undefined`. -/
def updateAndDrawCubeOnSquare (squareSize : Int) (s : Scene) (squareIndex : Int)
    (direction : String) : Option Scene :=
  if squareIndex = -1 then
    match getAt s.squares s.currentTargetSquareIndex with
    | none => none
    | some currentSquare =>
      let newX := currentSquare.relativeX
      let newY := currentSquare.relativeY
      let (newX, newY) :=
        if direction = "left" then (newX - squareSize, newY)
        else if direction = "right" then (newX + squareSize, newY)
        else if direction = "up" then (newX, newY - squareSize)
        else if direction = "down" then (newX, newY + squareSize)
        else (newX, newY)
      let squares :=
        if !squareExistsAtPosition s.squares newX newY then
          addNewSquareAtPosition s.squares newX newY
        else s.squares
      some { squares := squares
             currentTargetSquareIndex :=
               findIndex (fun sq => sq.relativeX == newX && sq.relativeY == newY) squares }
  else
    some { s with currentTargetSquareIndex := squareIndex }

/-! ## Nearest tile in a direction -/

/-- The two variables the `forEach` callback of `findNearestSquare` updates.
A distance `Math.sqrt(q)` is represented by its radicand `q` (the square root
is strictly increasing, so comparing radicands compares distances), and
`minDistance = none` is the initial `Number.MAX_VALUE`, above every distance. -/
structure NearestState where
  nearestSquareIndex : Int
  minDistance : Option Int
deriving DecidableEq, Repr

/-- Radicand `dx * dx + dy * dy` of the `distance` computed by the callback. -/
def distanceSq (currentSquare square : Square) : Int :=
  let dx := square.relativeX - currentSquare.relativeX
  let dy := square.relativeY - currentSquare.relativeY
  dx * dx + dy * dy

/-- Body of the `forEach` callback of `findNearestSquare` for one `square` at
position `index`. -/
def findNearestStep (squareSize : Int) (currentSquare : Square) (direction : String)
    (st : NearestState) (square : Square) (index : Nat) : NearestState :=
  let dx := square.relativeX - currentSquare.relativeX
  let dy := square.relativeY - currentSquare.relativeY
  let distance := distanceSq currentSquare square
  let belowMin : Bool :=
    match st.minDistance with
    | none => true
    | some m => decide (distance < m)
  if belowMin && decide (distance > 0) then
    if direction = "left" ∧ dx < 0 ∧ |dy| < squareSize then
      { nearestSquareIndex := index, minDistance := some distance }
    else if direction = "right" ∧ dx > 0 ∧ |dy| < squareSize then
      { nearestSquareIndex := index, minDistance := some distance }
    else if direction = "up" ∧ dy < 0 ∧ |dx| < squareSize then
      { nearestSquareIndex := index, minDistance := some distance }
    else if direction = "down" ∧ dy > 0 ∧ |dx| < squareSize then
      { nearestSquareIndex := index, minDistance := some distance }
    else st
  else st

/-- The `squares.forEach` loop of `findNearestSquare`, from position `index`
on. -/
def findNearestLoop (squareSize : Int) (currentSquare : Square) (direction : String) :
    List Square → Nat → NearestState → NearestState
  | [], _, st => st
  | square :: rest, index, st =>
    findNearestLoop squareSize currentSquare direction rest (index + 1)
      (findNearestStep squareSize currentSquare direction st square index)

/-- Source `findNearestSquare(currentSquare, direction)`. -/
def findNearestSquare (squareSize : Int) (squares : List Square) (currentSquare : Square)
    (direction : String) : Int :=
  (findNearestLoop squareSize currentSquare direction squares 0
    { nearestSquareIndex := -1, minDistance := none }).nearestSquareIndex

/-- A tile qualifies for `direction`, in the words of the specification: the
directional delta has the correct strict sign and the absolute perpendicular
offset is strictly less than `squareSize`. -/
def Qualifies (squareSize : Int) (currentSquare : Square) (direction : String)
    (square : Square) : Prop :=
  (direction = "left" ∧ square.relativeX - currentSquare.relativeX < 0
      ∧ |square.relativeY - currentSquare.relativeY| < squareSize)
  ∨ (direction = "right" ∧ 0 < square.relativeX - currentSquare.relativeX
      ∧ |square.relativeY - currentSquare.relativeY| < squareSize)
  ∨ (direction = "up" ∧ square.relativeY - currentSquare.relativeY < 0
      ∧ |square.relativeX - currentSquare.relativeX| < squareSize)
  ∨ (direction = "down" ∧ 0 < square.relativeY - currentSquare.relativeY
      ∧ |square.relativeX - currentSquare.relativeX| < squareSize)

/-- Loop invariant of `findNearestSquare` once the tiles `seen` have been
visited: either nothing qualified so far and the variables are untouched, or the
variables hold the first tile of least distance among the qualifying ones. -/
def NearestInv (squareSize : Int) (currentSquare : Square) (direction : String)
    (seen : List Square) (st : NearestState) : Prop :=
  (st.nearestSquareIndex = -1 ∧ st.minDistance = none
      ∧ ∀ sq ∈ seen, ¬ Qualifies squareSize currentSquare direction sq)
  ∨ ∃ i : Nat, ∃ sq, st.nearestSquareIndex = (i : Int) ∧ seen[i]? = some sq
      ∧ Qualifies squareSize currentSquare direction sq
      ∧ st.minDistance = some (distanceSq currentSquare sq)
      ∧ ∀ j sq0, seen[j]? = some sq0 → Qualifies squareSize currentSquare direction sq0 →
          distanceSq currentSquare sq ≤ distanceSq currentSquare sq0
          ∧ (j < i → distanceSq currentSquare sq < distanceSq currentSquare sq0)

/-! ## Layout generation -/

/-- One entry `{ dx, dy }` of `adjacentPositions`. -/
structure Offset where
  dx : Int
  dy : Int
deriving DecidableEq, Repr

/-- The `adjacentPositions` table of `addAdjacentSquare`. -/
def adjacentPositions (squareSize : Int) : List Offset :=
  [ { dx := -squareSize, dy := 0 },
    { dx := squareSize, dy := 0 },
    { dx := 0, dy := -squareSize },
    { dx := 0, dy := squareSize },
    { dx := -squareSize, dy := -squareSize },
    { dx := squareSize, dy := -squareSize },
    { dx := -squareSize, dy := squareSize },
    { dx := squareSize, dy := squareSize } ]

/-- Source `addAdjacentSquare()`. The two `Math.random()` results are `r1`
(base tile) and `r2` (offset); `Math.floor` is `Rat.floor`. `none` is the
`TypeError` of reading a property of an `undefined` base tile or offset. -/
def addAdjacentSquare (squareSize : Int) (squares : List Square) (r1 r2 : ℚ) :
    Option (List Square) :=
  match getAt squares (Rat.floor (r1 * squares.length)),
        getAt (adjacentPositions squareSize)
          (Rat.floor (r2 * (adjacentPositions squareSize).length)) with
  | some baseSquare, some position =>
    let newRelativeX := baseSquare.relativeX + position.dx
    let newRelativeY := baseSquare.relativeY + position.dy
    let isOccupied := squares.any (fun square =>
      square.relativeX == newRelativeX && square.relativeY == newRelativeY)
    if !isOccupied then
      some (squares ++ [{ relativeX := newRelativeX, relativeY := newRelativeY }])
    else some squares
  | _, _ => none

/-- The `while (squares.length < additionalSquares + 1)` loop of
`generateSquares`; each iteration consumes two draws. The result is `some` of
the final array when the loop exits, and `none` when the draws given do not
take it to its exit (they run out first, or an iteration throws). -/
def generateLoop (squareSize : Int) (additionalSquares : Int) :
    List ℚ → List Square → Option (List Square)
  | [], squares =>
    if (squares.length : Int) < additionalSquares + 1 then none else some squares
  | [_], squares =>
    if (squares.length : Int) < additionalSquares + 1 then none else some squares
  | r1 :: r2 :: rest, squares =>
    if (squares.length : Int) < additionalSquares + 1 then
      match addAdjacentSquare squareSize squares r1 r2 with
      | some squares => generateLoop squareSize additionalSquares rest squares
      | none => none
    else some squares

/-- Source `generateSquares()`, run on the array `squares` (empty at start-up).
The first draw decides `additionalSquares`. -/
def generateSquares (squareSize : Int) (squares : List Square) : List ℚ → Option (List Square)
  | [] => none
  | r :: rest =>
    let squares := squares ++ [{ relativeX := 0, relativeY := 0 }]
    let additionalSquares := Rat.floor (r * 25) + 9
    generateLoop squareSize additionalSquares rest squares

/-- Two tiles never share a position. -/
def DistinctPositions (squares : List Square) : Prop :=
  squares.Pairwise (fun a b => ¬ (a.relativeX = b.relativeX ∧ a.relativeY = b.relativeY))

/-- Tile `b` is lattice-adjacent to tile `a`: each coordinate differs by `0` or
by plus or minus `squareSize`, and the positions are not the same. -/
def LatticeAdjacent (squareSize : Int) (a b : Square) : Prop :=
  (b.relativeX - a.relativeX = 0 ∨ b.relativeX - a.relativeX = squareSize
      ∨ b.relativeX - a.relativeX = -squareSize)
  ∧ (b.relativeY - a.relativeY = 0 ∨ b.relativeY - a.relativeY = squareSize
      ∨ b.relativeY - a.relativeY = -squareSize)
  ∧ ¬ (b.relativeX = a.relativeX ∧ b.relativeY = a.relativeY)

/-- The list starts with a tile at `(0, 0)` and every later tile is
lattice-adjacent to a tile that appears earlier in the list. -/
def GrownFromOrigin (squareSize : Int) (squares : List Square) : Prop :=
  (∃ first, squares[0]? = some first ∧ first.relativeX = 0 ∧ first.relativeY = 0)
  ∧ ∀ j sq, 0 < j → squares[j]? = some sq →
      ∃ i base, i < j ∧ squares[i]? = some base ∧ LatticeAdjacent squareSize base sq

/-- One step between tiles of `squares` that are lattice-adjacent (the eight
neighbours). -/
def AdjacentIn (squareSize : Int) (squares : List Square) (a b : Square) : Prop :=
  a ∈ squares ∧ b ∈ squares ∧ LatticeAdjacent squareSize a b

/-- A sequence of draws on which `generateSquares` exits: the first asks for 9
additional tiles, each later pair picks the last tile and the offset to its
right. -/
def sampleDraws : List ℚ :=
  [0, 0, 1/8, 1/2, 1/8, 2/3, 1/8, 3/4, 1/8, 4/5, 1/8, 5/6, 1/8, 6/7, 1/8, 7/8, 1/8, 8/9, 1/8]

/-- The layout `generateSquares` builds from `sampleDraws` with tile size 50: a
row of ten tiles. -/
def sampleLayout : List Square :=
  [ { relativeX := 0, relativeY := 0 }, { relativeX := 50, relativeY := 0 },
    { relativeX := 100, relativeY := 0 }, { relativeX := 150, relativeY := 0 },
    { relativeX := 200, relativeY := 0 }, { relativeX := 250, relativeY := 0 },
    { relativeX := 300, relativeY := 0 }, { relativeX := 350, relativeY := 0 },
    { relativeX := 400, relativeY := 0 }, { relativeX := 450, relativeY := 0 } ]

/-! ## Transforms and projections -/

/-- A point `{ x, y, z }`. -/
structure Point3 (α : Type) where
  x : α
  y : α
  z : α
deriving DecidableEq, Repr

/-- A projected point `{ x, y }`. -/
structure Point2 (α : Type) where
  x : α
  y : α
deriving DecidableEq, Repr

section Geometry

variable {α : Type}

/-- Source `dimetricProjection(point)`; `sqrt` is `Math.sqrt`. The arithmetic is
that of the number type `α`: exact over the reals, rounded over `F64`. -/
def dimetricProjection [Add α] [Sub α] [Mul α] [Div α] [OfNat α 2] [OfNat α 3]
    (sqrt : α → α) (point : Point3 α) : Point2 α :=
  { x := (point.x - point.y) * sqrt 3 / 2
    y := (point.x + point.y) / 2 - point.z }

/-- Source `perspectiveProjection(point)`; `fov` is the closure variable (500 in
the source). The source does not guard `d + point.z = 0`; there the field's
`a / 0 = 0` stands in for the infinity or NaN of JavaScript. -/
def perspectiveProjection [Field α] (fov : α) (point : Point3 α) : Point3 α :=
  let d := fov
  { x := point.x * d / (d + point.z)
    y := point.y * d / (d + point.z)
    z := point.z }

/-- Source `rotateX(point, angle)`. -/
def rotateX [Field α] (cos sin : α → α) (point : Point3 α) (angle : α) : Point3 α :=
  let cosX := cos angle
  let sinX := sin angle
  { x := point.x
    y := point.y * cosX - point.z * sinX
    z := point.y * sinX + point.z * cosX }

/-- Source `rotateY(point, angle)`. -/
def rotateY [Field α] (cos sin : α → α) (point : Point3 α) (angle : α) : Point3 α :=
  let cosY := cos angle
  let sinY := sin angle
  { x := point.x * cosY + point.z * sinY
    y := point.y
    z := (-point.x) * sinY + point.z * cosY }

/-- Source `rotateZ(point, angle)`. -/
def rotateZ [Field α] (cos sin : α → α) (point : Point3 α) (angle : α) : Point3 α :=
  let cosZ := cos angle
  let sinZ := sin angle
  { x := point.x * cosZ - point.y * sinZ
    y := point.x * sinZ + point.y * cosZ
    z := point.z }

/-- Source `rotateXY(point, angleX, angleY)`. -/
def rotateXY [Field α] (cos sin : α → α) (point : Point3 α) (angleX angleY : α) : Point3 α :=
  let cosX := cos angleX
  let sinX := sin angleX
  let cosY := cos angleY
  let sinY := sin angleY
  { x := cosY * point.x + sinY * point.z
    y := cosX * point.y - sinX * (sinY * point.x - cosY * point.z)
    z := cosX * (sinY * point.x - cosY * point.z) + sinX * point.y }

/-- Source `crossProduct(a, b)` on three-element arrays. -/
def crossProduct [Field α] (a b : α × α × α) : α × α × α :=
  (a.2.1 * b.2.2 - a.2.2 * b.2.1,
   a.2.2 * b.1 - a.1 * b.2.2,
   a.1 * b.2.1 - a.2.1 * b.1)

/-! ## The cube -/

/-- A call on the 2D drawing context. -/
inductive CanvasOp (α : Type) where
  | beginPath
  | moveTo (x y : α)
  | lineTo (x y : α)
  | closePath
  | stroke
  | fillStyle (color : String)
  | fill
deriving DecidableEq, Repr

/-- The `faces` table of `drawCube`: back, right, front, left, top, bottom. -/
def faces : List (Fin 4 → Fin 8) :=
  [ ![0, 1, 2, 3],
    ![1, 5, 6, 2],
    ![5, 4, 7, 6],
    ![4, 0, 3, 7],
    ![3, 2, 6, 7],
    ![4, 5, 1, 0] ]

/-- The `vertices` of `drawCube` after the lift by `halfSide + 1` and the
rotation about the z axis. -/
def cubeVertices [Field α] (cos sin : α → α) (targetSquare : Square) (sideLength zAngle : α) :
    Fin 8 → Point3 α :=
  let halfSide := sideLength / 2
  let tx : α := (targetSquare.relativeX : α)
  let ty : α := (targetSquare.relativeY : α)
  let vertices : Fin 8 → Point3 α :=
    ![ { x := tx - halfSide, y := ty - halfSide, z := -halfSide },
       { x := tx + halfSide, y := ty - halfSide, z := -halfSide },
       { x := tx + halfSide, y := ty + halfSide, z := -halfSide },
       { x := tx - halfSide, y := ty + halfSide, z := -halfSide },
       { x := tx - halfSide, y := ty - halfSide, z := halfSide },
       { x := tx + halfSide, y := ty - halfSide, z := halfSide },
       { x := tx + halfSide, y := ty + halfSide, z := halfSide },
       { x := tx - halfSide, y := ty + halfSide, z := halfSide } ]
  let vertices : Fin 8 → Point3 α := fun i =>
    { x := (vertices i).x, y := (vertices i).y, z := (vertices i).z + halfSide + 1 }
  fun i => rotateZ cos sin (vertices i) zAngle

/-- The `normal` that the face loop of `drawCube` computes for `face`: the cross
product of the projected edge vectors `p1 - p0` and `p2 - p0`. -/
def faceNormal [Field α] (cos sin : α → α) (fov xAngle yAngle : α)
    (vertices : Fin 8 → Point3 α) (face : Fin 4 → Fin 8) : α × α × α :=
  let p0 := perspectiveProjection fov (rotateXY cos sin (vertices (face 0)) xAngle yAngle)
  let p1 := perspectiveProjection fov (rotateXY cos sin (vertices (face 1)) xAngle yAngle)
  let p2 := perspectiveProjection fov (rotateXY cos sin (vertices (face 2)) xAngle yAngle)
  crossProduct (p1.x - p0.x, p1.y - p0.y, p1.z - p0.z) (p2.x - p0.x, p2.y - p0.y, p2.z - p0.z)

/-- One iteration of the face loop of `drawCube`: the context calls it makes for
`face`. -/
def drawFace [LinearOrderedField α] (cos sin : α → α) (fov xAngle yAngle : α)
    (vertices : Fin 8 → Point3 α) (centerX centerY : α) (face : Fin 4 → Fin 8) :
    List (CanvasOp α) :=
  let p0 := perspectiveProjection fov (rotateXY cos sin (vertices (face 0)) xAngle yAngle)
  let normal := faceNormal cos sin fov xAngle yAngle vertices face
  (if normal.2.2 < 0 then
    [CanvasOp.beginPath, CanvasOp.moveTo (p0.x + centerX) (p0.y + centerY)]
      ++ ([1, 2, 3].map fun i =>
        let p := perspectiveProjection fov (rotateXY cos sin (vertices (face i)) xAngle yAngle)
        CanvasOp.lineTo (p.x + centerX) (p.y + centerY))
      ++ [CanvasOp.closePath, CanvasOp.stroke]
  else [])
  ++ [CanvasOp.fillStyle "rgba(0, 255, 255, 1)", CanvasOp.fill]

/-- Source `drawCube(centerX, centerY, sideLength)`: the context calls it makes,
in order. `none` is the `TypeError` of `targetSquare.relativeX` when
`squares[currentTargetSquareIndex]` is `undefined`. -/
def drawCube [LinearOrderedField α] (cos sin : α → α) (fov xAngle yAngle zAngle : α)
    (s : Scene) (centerX centerY sideLength : α) : Option (List (CanvasOp α)) :=
  match getAt s.squares s.currentTargetSquareIndex with
  | none => none
  | some targetSquare =>
    let vertices := cubeVertices cos sin targetSquare sideLength zAngle
    some (faces.flatMap (drawFace cos sin fov xAngle yAngle vertices centerX centerY))

/-- The cull test of `drawCube` on each face, in face-list order: `true` where
the face is stroked (`normal[2] < 0`). -/
def strokedFaces [LinearOrderedField α] (cos sin : α → α) (fov xAngle yAngle zAngle : α)
    (targetSquare : Square) (sideLength : α) : List Bool :=
  faces.map fun face =>
    decide ((faceNormal cos sin fov xAngle yAngle
      (cubeVertices cos sin targetSquare sideLength zAngle) face).2.2 < 0)

end Geometry

/-! ## Binary64 arithmetic -/

/-- The integer nearest to `q`, ties to the even one. -/
def roundHalfEven (q : ℚ) : Int :=
  let f := Rat.floor q
  if q - f < 1 / 2 then f
  else if 1 / 2 < q - f then f + 1
  else if f % 2 = 0 then f else f + 1

/-- Rounding of an exact result to binary64, as every arithmetic operation on
JavaScript numbers does: the nearest number with a 53-bit significand, ties to
the even significand. The exponent range is not bounded: overflow to infinity
and the subnormal numbers are not modelled. -/
def f64round (q : ℚ) : ℚ :=
  if q = 0 then 0
  else
    let e : Int := Int.log 2 |q| - 52
    (roundHalfEven (q / 2 ^ e) : ℚ) * 2 ^ e

/-- The builtin `Math.sqrt` on a binary64 value: the correctly rounded square
root. `t` is the integer part of the root scaled by `2 ^ s`, at least 57 bits
long, so the root rounds like `t` when it is exact and like `t + 1/2` when it
is not. The `NaN` of a negative argument is not modelled. -/
def f64sqrt (q : ℚ) : ℚ :=
  if q ≤ 0 then 0
  else
    let s : Int := 56 - Int.log 2 q / 2
    let scaled : ℚ := q * 2 ^ (2 * s)
    let t : Nat := Nat.sqrt (Rat.floor scaled).toNat
    if (t : ℚ) * t = scaled then f64round (t / 2 ^ s)
    else f64round ((t + 1 / 2) / 2 ^ s)

/-- A JavaScript number: a binary64 value, held as the rational it denotes. The
operations round their exact result; infinities and `NaN` are not modelled
(`a / 0` is `0` here). -/
structure F64 where
  val : ℚ
deriving DecidableEq, Repr

instance : Add F64 := ⟨fun a b => ⟨f64round (a.val + b.val)⟩⟩

instance : Sub F64 := ⟨fun a b => ⟨f64round (a.val - b.val)⟩⟩

instance : Mul F64 := ⟨fun a b => ⟨f64round (a.val * b.val)⟩⟩

instance : Div F64 := ⟨fun a b => ⟨f64round (a.val / b.val)⟩⟩

instance (n : Nat) : OfNat F64 n := ⟨⟨f64round n⟩⟩

/-- The builtin `Math.sqrt` on `F64`. -/
def F64.sqrt (a : F64) : F64 := ⟨f64sqrt a.val⟩

/-! ## Reading the drawing calls -/

/-- The call is `context.fill()`. -/
def CanvasOp.isFill {α : Type} : CanvasOp α → Bool
  | CanvasOp.fill => true
  | _ => false

/-- The call is `context.stroke()`. -/
def CanvasOp.isStroke {α : Type} : CanvasOp α → Bool
  | CanvasOp.stroke => true
  | _ => false

/-- The call is `context.beginPath()`. -/
def CanvasOp.isBeginPath {α : Type} : CanvasOp α → Bool
  | CanvasOp.beginPath => true
  | _ => false

/-! ## Keyboard navigation -/

/-- The `direction` that `keyBoardEvents` derives from `event.key`; `none` is
`undefined` (any key other than the four arrows). -/
def keyDirection (key : String) : Option String :=
  if key = "ArrowLeft" then some "left"
  else if key = "ArrowRight" then some "right"
  else if key = "ArrowUp" then some "up"
  else if key = "ArrowDown" then some "down"
  else none

/-- Source `keyBoardEvents(event)`, restricted to its effect on `squares` and
`currentTargetSquareIndex`; `key` is `event.key`. The other keys write neither,
so the scene is returned as it is. With an arrow key and
`squares[currentTargetSquareIndex]` undefined, a `TypeError` is raised (`none`):
by `findNearestSquare` on its first tile, or by `updateAndDrawCubeOnSquare` when
there is no tile. -/
def keyBoardEvents (squareSize : Int) (s : Scene) (key : String) : Option Scene :=
  match keyDirection key with
  | some direction =>
    match getAt s.squares s.currentTargetSquareIndex with
    | none => none
    | some currentSquare =>
      let newIndex := findNearestSquare squareSize s.squares currentSquare direction
      updateAndDrawCubeOnSquare squareSize s newIndex direction
  | none => some s

/-- Every tile lies on the lattice: both coordinates are integer multiples of
`squareSize`. -/
def OnLattice (squareSize : Int) (squares : List Square) : Prop :=
  ∀ sq ∈ squares, squareSize ∣ sq.relativeX ∧ squareSize ∣ sq.relativeY

/-- The active index points at a tile: `0 ≤ index < squares.length`. -/
def ValidIndex (s : Scene) : Prop :=
  0 ≤ s.currentTargetSquareIndex ∧ s.currentTargetSquareIndex < (s.squares.length : Int)

/-- Successive calls of `addAdjacentSquare`, one per pair of draws; `none` when a
call throws. -/
def addAdjacentSquares (squareSize : Int) :
    List Square → List (ℚ × ℚ) → Option (List Square)
  | squares, [] => some squares
  | squares, (r1, r2) :: rest =>
    match addAdjacentSquare squareSize squares r1 r2 with
    | some next => addAdjacentSquares squareSize next rest
    | none => none

/-! ## Rotations as matrices -/

section Rotations

variable {α : Type}

/-- The column vector of the coordinates of a point. -/
def Point3.toVec (point : Point3 α) : Fin 3 → α :=
  ![point.x, point.y, point.z]

/-- The standard right-handed rotation matrix about the x axis, from the cosine
`c` and sine `s` of the angle. -/
def rotationMatrixX [Field α] (c s : α) : Matrix (Fin 3) (Fin 3) α :=
  !![1, 0, 0;
     0, c, -s;
     0, s, c]

/-- The standard right-handed rotation matrix about the y axis. -/
def rotationMatrixY [Field α] (c s : α) : Matrix (Fin 3) (Fin 3) α :=
  !![c, 0, s;
     0, 1, 0;
     -s, 0, c]

/-- The standard right-handed rotation matrix about the z axis. -/
def rotationMatrixZ [Field α] (c s : α) : Matrix (Fin 3) (Fin 3) α :=
  !![c, -s, 0;
     s, c, 0;
     0, 0, 1]

/-- The squared length `x² + y² + z²` of a point. -/
def normSq [Field α] (point : Point3 α) : α :=
  point.x * point.x + point.y * point.y + point.z * point.z

/-- The mirror image of a point in the plane `z = 0`. -/
def negZ [Field α] (point : Point3 α) : Point3 α :=
  { x := point.x, y := point.y, z := -point.z }

end Rotations

/-! ## Lemmas on the array builtins -/

theorem findIndex_of_exists {α : Type} (p : α → Bool) (arr : List α)
    (h : ∃ x ∈ arr, p x = true) :
    findIndex p arr = (arr.findIdx p : Int) ∧ arr.findIdx p < arr.length := by
  refine ⟨?_, List.findIdx_lt_length_of_exists h⟩
  unfold findIndex
  rw [if_pos (List.any_eq_true.mpr h)]

theorem findIndex_of_forall_not {α : Type} (p : α → Bool) (arr : List α)
    (h : ∀ x ∈ arr, p x = false) : findIndex p arr = -1 := by
  unfold findIndex
  rw [if_neg]
  intro hany
  obtain ⟨x, hx, hp⟩ := List.any_eq_true.mp hany
  rw [h x hx] at hp
  exact Bool.noConfusion hp

theorem findIndex_append_new {α : Type} (p : α → Bool) (arr : List α) (x : α)
    (h : ∀ y ∈ arr, p y = false) (hx : p x = true) :
    findIndex p (arr ++ [x]) = (arr.length : Int) := by
  have hex : ∃ y ∈ arr ++ [x], p y = true := ⟨x, by simp, hx⟩
  rw [(findIndex_of_exists p _ hex).1, List.findIdx_append,
    List.findIdx_eq_length_of_false h]
  simp [List.findIdx_cons, hx]

theorem squareExistsAtPosition_iff (squares : List Square) (x y : Int) :
    squareExistsAtPosition squares x y = true ↔
      ∃ sq ∈ squares, sq.relativeX = x ∧ sq.relativeY = y := by
  simp [squareExistsAtPosition, List.any_eq_true]

/-- The two outcomes of navigating to position `(newX, newY)`: append a red tile
there, or reuse the first tile found there. -/
theorem navigate_to_position (s : Scene) (newX newY : Int) :
    let squares :=
      if !squareExistsAtPosition s.squares newX newY then
        addNewSquareAtPosition s.squares newX newY
      else s.squares
    let idx := findIndex (fun sq => sq.relativeX == newX && sq.relativeY == newY) squares
    ((∀ sq ∈ s.squares, ¬ (sq.relativeX = newX ∧ sq.relativeY = newY)) →
      squares = s.squares ++ [{ relativeX := newX, relativeY := newY, color := some "red" }]
        ∧ idx = (s.squares.length : Int))
    ∧ ((∃ sq ∈ s.squares, sq.relativeX = newX ∧ sq.relativeY = newY) →
      squares = s.squares ∧ ∃ j : Nat, idx = (j : Int) ∧ ∃ sq, s.squares[j]? = some sq
        ∧ sq.relativeX = newX ∧ sq.relativeY = newY
        ∧ ∀ k < j, ∀ sq0, s.squares[k]? = some sq0 →
            ¬ (sq0.relativeX = newX ∧ sq0.relativeY = newY)) := by
  intro squares idx
  constructor
  · intro hno
    have hex : squareExistsAtPosition s.squares newX newY = false := by
      rw [← Bool.not_eq_true, squareExistsAtPosition_iff]
      rintro ⟨sq, hm, h⟩
      exact hno sq hm h
    have hsq : squares
        = s.squares ++ [{ relativeX := newX, relativeY := newY, color := some "red" }] := by
      simp [squares, hex, addNewSquareAtPosition]
    refine ⟨hsq, ?_⟩
    show findIndex _ squares = _
    rw [hsq]
    apply findIndex_append_new
    · intro y hy
      have := hno y hy
      simp only [Bool.and_eq_false_imp, beq_iff_eq, beq_eq_false_iff_ne]
      intro hx hy2
      exact this ⟨hx, hy2⟩
    · simp
  · intro hyes
    have hex : squareExistsAtPosition s.squares newX newY = true :=
      (squareExistsAtPosition_iff _ _ _).mpr hyes
    have hsq : squares = s.squares := by simp [squares, hex]
    refine ⟨hsq, ?_⟩
    have hp : ∃ x ∈ s.squares,
        (fun sq : Square => sq.relativeX == newX && sq.relativeY == newY) x = true := by
      obtain ⟨sq, hm, h1, h2⟩ := hyes
      exact ⟨sq, hm, by simp [h1, h2]⟩
    obtain ⟨hidx, hlt⟩ := findIndex_of_exists _ _ hp
    refine ⟨_, by show findIndex _ squares = _; rw [hsq]; exact hidx, s.squares[_], 
      List.getElem?_eq_getElem hlt, ?_⟩
    have hget := @List.findIdx_getElem _ _ s.squares hlt
    simp only [Bool.and_eq_true, beq_iff_eq] at hget
    refine ⟨hget.1, hget.2, ?_⟩
    intro k hk sq0 hsq0 hpos
    have hk2 : k < s.squares.length := lt_trans hk hlt
    have := @List.not_of_lt_findIdx _ _ s.squares k hk
    rw [List.getElem?_eq_getElem hk2] at hsq0
    cases hsq0
    simp [hpos.1, hpos.2] at this

/-- Claim C1. With a valid active tile, `updateAndDrawCubeOnSquare(-1, direction)` for a
direction among left, right, up, down targets the position one `squareSize` from the
active tile along that direction (left and right change `relativeX` only, up and down
change `relativeY` only). If no tile is there, the tile list becomes the old list with
one tile appended at that position with colour red, and that tile (index: the old
length) becomes active. If a tile is there, the list is unchanged and the first tile at
that position becomes active. -/
theorem updateAndDrawCubeOnSquare_creates_or_reuses (squareSize : Int) (s : Scene)
    (currentSquare : Square) (direction : String)
    (hcur : getAt s.squares s.currentTargetSquareIndex = some currentSquare)
    (hdir : direction = "left" ∨ direction = "right" ∨ direction = "up"
      ∨ direction = "down") :
    ∃ newX newY : Int,
      ((direction = "left" ∧ newX = currentSquare.relativeX - squareSize
          ∧ newY = currentSquare.relativeY)
        ∨ (direction = "right" ∧ newX = currentSquare.relativeX + squareSize
          ∧ newY = currentSquare.relativeY)
        ∨ (direction = "up" ∧ newX = currentSquare.relativeX
          ∧ newY = currentSquare.relativeY - squareSize)
        ∨ (direction = "down" ∧ newX = currentSquare.relativeX
          ∧ newY = currentSquare.relativeY + squareSize))
      ∧ ((∀ sq ∈ s.squares, ¬ (sq.relativeX = newX ∧ sq.relativeY = newY)) →
          updateAndDrawCubeOnSquare squareSize s (-1) direction =
            some { squares := s.squares
                      ++ [{ relativeX := newX, relativeY := newY, color := some "red" }]
                   currentTargetSquareIndex := (s.squares.length : Int) })
      ∧ ((∃ sq ∈ s.squares, sq.relativeX = newX ∧ sq.relativeY = newY) →
          ∃ j : Nat, ∃ sq, s.squares[j]? = some sq
            ∧ sq.relativeX = newX ∧ sq.relativeY = newY
            ∧ (∀ k < j, ∀ sq0, s.squares[k]? = some sq0 →
                ¬ (sq0.relativeX = newX ∧ sq0.relativeY = newY))
            ∧ updateAndDrawCubeOnSquare squareSize s (-1) direction =
                some { squares := s.squares, currentTargetSquareIndex := (j : Int) }) := by
  have key : ∀ newX newY : Int,
      updateAndDrawCubeOnSquare squareSize s (-1) direction =
        some { squares :=
                 if !squareExistsAtPosition s.squares newX newY then
                   addNewSquareAtPosition s.squares newX newY
                 else s.squares
               currentTargetSquareIndex :=
                 findIndex (fun sq => sq.relativeX == newX && sq.relativeY == newY)
                   (if !squareExistsAtPosition s.squares newX newY then
                     addNewSquareAtPosition s.squares newX newY
                   else s.squares) } →
      ((∀ sq ∈ s.squares, ¬ (sq.relativeX = newX ∧ sq.relativeY = newY)) →
          updateAndDrawCubeOnSquare squareSize s (-1) direction =
            some { squares := s.squares
                      ++ [{ relativeX := newX, relativeY := newY, color := some "red" }]
                   currentTargetSquareIndex := (s.squares.length : Int) })
      ∧ ((∃ sq ∈ s.squares, sq.relativeX = newX ∧ sq.relativeY = newY) →
          ∃ j : Nat, ∃ sq, s.squares[j]? = some sq
            ∧ sq.relativeX = newX ∧ sq.relativeY = newY
            ∧ (∀ k < j, ∀ sq0, s.squares[k]? = some sq0 →
                ¬ (sq0.relativeX = newX ∧ sq0.relativeY = newY))
            ∧ updateAndDrawCubeOnSquare squareSize s (-1) direction =
                some { squares := s.squares, currentTargetSquareIndex := (j : Int) }) := by
    intro newX newY heq
    have hnav := navigate_to_position s newX newY
    constructor
    · intro hno
      obtain ⟨h1, h2⟩ := hnav.1 hno
      rw [heq, h2, h1]
    · intro hyes
      obtain ⟨h1, j, h2, sq, h3, h4, h5, h6⟩ := hnav.2 hyes
      exact ⟨j, sq, h3, h4, h5, h6, by rw [heq, h2, h1]⟩
  rcases hdir with h | h | h | h <;> subst h
  · exact ⟨_, _, Or.inl ⟨rfl, rfl, rfl⟩,
      key _ _ (by simp [updateAndDrawCubeOnSquare, hcur])⟩
  · exact ⟨_, _, Or.inr (Or.inl ⟨rfl, rfl, rfl⟩),
      key _ _ (by simp [updateAndDrawCubeOnSquare, hcur])⟩
  · exact ⟨_, _, Or.inr (Or.inr (Or.inl ⟨rfl, rfl, rfl⟩)),
      key _ _ (by simp [updateAndDrawCubeOnSquare, hcur])⟩
  · exact ⟨_, _, Or.inr (Or.inr (Or.inr ⟨rfl, rfl, rfl⟩)),
      key _ _ (by simp [updateAndDrawCubeOnSquare, hcur])⟩

/-- Witness for C1: from the single origin tile, navigating right appends a red tile
at `(50, 0)`. -/
theorem updateAndDrawCubeOnSquare_creates_or_reuses_witness :
    ∃ newX newY : Int,
      (("right" = "left" ∧ newX = (0 : Int) - 50 ∧ newY = (0 : Int))
        ∨ ("right" = "right" ∧ newX = (0 : Int) + 50 ∧ newY = (0 : Int))
        ∨ ("right" = "up" ∧ newX = (0 : Int) ∧ newY = (0 : Int) - 50)
        ∨ ("right" = "down" ∧ newX = (0 : Int) ∧ newY = (0 : Int) + 50))
      ∧ ((∀ sq ∈ [({ relativeX := 0, relativeY := 0 } : Square)],
            ¬ (sq.relativeX = newX ∧ sq.relativeY = newY)) →
          updateAndDrawCubeOnSquare 50
              { squares := [{ relativeX := 0, relativeY := 0 }]
                currentTargetSquareIndex := 0 } (-1) "right" =
            some { squares := [{ relativeX := 0, relativeY := 0 }]
                      ++ [{ relativeX := newX, relativeY := newY, color := some "red" }]
                   currentTargetSquareIndex := 1 })
      ∧ ((∃ sq ∈ [({ relativeX := 0, relativeY := 0 } : Square)],
            sq.relativeX = newX ∧ sq.relativeY = newY) →
          ∃ j : Nat, ∃ sq, [({ relativeX := 0, relativeY := 0 } : Square)][j]? = some sq
            ∧ sq.relativeX = newX ∧ sq.relativeY = newY
            ∧ (∀ k < j, ∀ sq0, [({ relativeX := 0, relativeY := 0 } : Square)][k]? = some sq0 →
                ¬ (sq0.relativeX = newX ∧ sq0.relativeY = newY))
            ∧ updateAndDrawCubeOnSquare 50
                { squares := [{ relativeX := 0, relativeY := 0 }]
                  currentTargetSquareIndex := 0 } (-1) "right" =
                some { squares := [{ relativeX := 0, relativeY := 0 }]
                       currentTargetSquareIndex := (j : Int) }) :=
  updateAndDrawCubeOnSquare_creates_or_reuses 50
    { squares := [{ relativeX := 0, relativeY := 0 }], currentTargetSquareIndex := 0 }
    { relativeX := 0, relativeY := 0 } "right" (by decide) (by decide)

/-! ## `findNearestSquare` -/

theorem distanceSq_nonneg (currentSquare square : Square) :
    0 ≤ distanceSq currentSquare square := by
  simp only [distanceSq]
  exact add_nonneg (mul_self_nonneg _) (mul_self_nonneg _)

theorem distanceSq_pos_of_qualifies {squareSize : Int} {currentSquare : Square}
    {direction : String} {square : Square}
    (h : Qualifies squareSize currentSquare direction square) :
    0 < distanceSq currentSquare square := by
  simp only [distanceSq]
  rcases h with ⟨_, h, _⟩ | ⟨_, h, _⟩ | ⟨_, h, _⟩ | ⟨_, h, _⟩
  · exact add_pos_of_pos_of_nonneg (mul_self_pos.mpr (ne_of_lt h)) (mul_self_nonneg _)
  · exact add_pos_of_pos_of_nonneg (mul_self_pos.mpr (ne_of_gt h)) (mul_self_nonneg _)
  · exact add_pos_of_nonneg_of_pos (mul_self_nonneg _) (mul_self_pos.mpr (ne_of_lt h))
  · exact add_pos_of_nonneg_of_pos (mul_self_nonneg _) (mul_self_pos.mpr (ne_of_gt h))

theorem findNearestStep_of_not_qualifies (squareSize : Int) (currentSquare : Square)
    (direction : String) (st : NearestState) (square : Square) (index : Nat)
    (h : ¬ Qualifies squareSize currentSquare direction square) :
    findNearestStep squareSize currentSquare direction st square index = st := by
  simp only [Qualifies, not_or] at h
  obtain ⟨h1, h2, h3, h4⟩ := h
  simp only [findNearestStep, gt_iff_lt]
  rw [if_neg h1, if_neg h2, if_neg h3, if_neg h4]
  simp

theorem findNearestStep_of_not_below (squareSize : Int) (currentSquare : Square)
    (direction : String) (st : NearestState) (square : Square) (index : Nat) (m : Int)
    (hm : st.minDistance = some m) (h : m ≤ distanceSq currentSquare square) :
    findNearestStep squareSize currentSquare direction st square index = st := by
  simp only [findNearestStep, hm]
  rw [if_neg]
  simp [not_lt.mpr h]

theorem findNearestStep_of_qualifies (squareSize : Int) (currentSquare : Square)
    (direction : String) (st : NearestState) (square : Square) (index : Nat)
    (hq : Qualifies squareSize currentSquare direction square)
    (h : ∀ m, st.minDistance = some m → distanceSq currentSquare square < m) :
    findNearestStep squareSize currentSquare direction st square index =
      { nearestSquareIndex := index, minDistance := some (distanceSq currentSquare square) } := by
  have hpos := distanceSq_pos_of_qualifies hq
  have hbelow : (match st.minDistance with
      | none => true
      | some m => decide (distanceSq currentSquare square < m)) = true := by
    cases hmin : st.minDistance with
    | none => rfl
    | some m => simpa using h m hmin
  simp only [findNearestStep, hbelow, gt_iff_lt, hpos, decide_True, Bool.and_self, if_true]
  rcases hq with hq | hq | hq | hq
  · rw [if_pos hq]
  · split_ifs <;> rfl
  · split_ifs <;> rfl
  · split_ifs <;> rfl

theorem getElem?_snoc_cases {α : Type} (seen : List α) (x : α) (j : Nat) (y : α)
    (h : (seen ++ [x])[j]? = some y) :
    (j < seen.length ∧ seen[j]? = some y) ∨ (j = seen.length ∧ y = x) := by
  rcases Nat.lt_trichotomy j seen.length with hlt | heq | hgt
  · left
    rw [List.getElem?_append_left hlt] at h
    exact ⟨hlt, h⟩
  · right
    subst heq
    simp at h
    exact ⟨rfl, h.symm⟩
  · exfalso
    have hlen : (seen ++ [x]).length ≤ j := by simp; omega
    rw [List.getElem?_eq_none hlen] at h
    exact Option.noConfusion h

theorem lt_length_of_getElem? {α : Type} (seen : List α) (j : Nat) (y : α)
    (h : seen[j]? = some y) : j < seen.length := by
  by_contra hge
  rw [List.getElem?_eq_none (not_lt.mp hge)] at h
  exact Option.noConfusion h

theorem getElem?_snoc_left {α : Type} (seen : List α) (x : α) (j : Nat) (y : α)
    (h : seen[j]? = some y) : (seen ++ [x])[j]? = some y := by
  rw [List.getElem?_append_left (lt_length_of_getElem? seen j y h)]
  exact h

theorem nearestInv_step (squareSize : Int) (currentSquare : Square) (direction : String)
    (seen : List Square) (st : NearestState) (square : Square)
    (hinv : NearestInv squareSize currentSquare direction seen st) :
    NearestInv squareSize currentSquare direction (seen ++ [square])
      (findNearestStep squareSize currentSquare direction st square seen.length) := by
  by_cases hq : Qualifies squareSize currentSquare direction square
  · rcases hinv with ⟨_, hmin, hnone⟩ | ⟨i, sq, hidx, hget, hqs, hmin, hbest⟩
    · rw [findNearestStep_of_qualifies _ _ _ _ _ _ hq (by simp [hmin])]
      refine Or.inr ⟨seen.length, square, rfl, by simp, hq, rfl, ?_⟩
      intro j sq0 hj hq0
      rcases getElem?_snoc_cases _ _ _ _ hj with ⟨_, hj2⟩ | ⟨hj1, hj2⟩
      · exact absurd hq0 (hnone sq0 (List.getElem?_mem hj2))
      · subst hj2
        exact ⟨le_refl _, fun h => absurd h (by omega)⟩
    · by_cases hlt : distanceSq currentSquare square < distanceSq currentSquare sq
      · rw [findNearestStep_of_qualifies _ _ _ _ _ _ hq
          (by intro m hm; rw [hmin] at hm; cases hm; exact hlt)]
        refine Or.inr ⟨seen.length, square, rfl, by simp, hq, rfl, ?_⟩
        intro j sq0 hj hq0
        rcases getElem?_snoc_cases _ _ _ _ hj with ⟨_, hj2⟩ | ⟨hj1, hj2⟩
        · have := (hbest j sq0 hj2 hq0).1
          exact ⟨by omega, fun _ => by omega⟩
        · subst hj2
          exact ⟨le_refl _, fun h => absurd h (by omega)⟩
      · rw [findNearestStep_of_not_below _ _ _ _ _ _ _ hmin (not_lt.mp hlt)]
        refine Or.inr ⟨i, sq, hidx, getElem?_snoc_left _ _ _ _ hget, hqs, hmin, ?_⟩
        intro j sq0 hj hq0
        rcases getElem?_snoc_cases _ _ _ _ hj with ⟨_, hj2⟩ | ⟨hj1, hj2⟩
        · exact hbest j sq0 hj2 hq0
        · subst hj2
          have hi := lt_length_of_getElem? _ _ _ hget
          exact ⟨not_lt.mp hlt, fun h => absurd h (by omega)⟩
  · rw [findNearestStep_of_not_qualifies _ _ _ _ _ _ hq]
    rcases hinv with ⟨hidx, hmin, hnone⟩ | ⟨i, sq, hidx, hget, hqs, hmin, hbest⟩
    · refine Or.inl ⟨hidx, hmin, ?_⟩
      intro sq0 hmem
      rcases List.mem_append.mp hmem with h | h
      · exact hnone sq0 h
      · rw [List.mem_singleton.mp h]
        exact hq
    · refine Or.inr ⟨i, sq, hidx, getElem?_snoc_left _ _ _ _ hget, hqs, hmin, ?_⟩
      intro j sq0 hj hq0
      rcases getElem?_snoc_cases _ _ _ _ hj with ⟨_, hj2⟩ | ⟨hj1, hj2⟩
      · exact hbest j sq0 hj2 hq0
      · subst hj2
        exact absurd hq0 hq

theorem nearestInv_loop (squareSize : Int) (currentSquare : Square) (direction : String)
    (rest : List Square) :
    ∀ (seen : List Square) (st : NearestState),
      NearestInv squareSize currentSquare direction seen st →
      NearestInv squareSize currentSquare direction (seen ++ rest)
        (findNearestLoop squareSize currentSquare direction rest seen.length st) := by
  induction rest with
  | nil =>
    intro seen st hinv
    simpa [findNearestLoop] using hinv
  | cons square rest ih =>
    intro seen st hinv
    have hstep := nearestInv_step squareSize currentSquare direction seen st square hinv
    have := ih (seen ++ [square]) _ hstep
    simpa [findNearestLoop] using this

theorem nearestInv_result (squareSize : Int) (squares : List Square)
    (currentSquare : Square) (direction : String) :
    NearestInv squareSize currentSquare direction squares
      (findNearestLoop squareSize currentSquare direction squares 0
        { nearestSquareIndex := -1, minDistance := none }) := by
  have := nearestInv_loop squareSize currentSquare direction squares []
    { nearestSquareIndex := -1, minDistance := none } (Or.inl ⟨rfl, rfl, by simp⟩)
  simpa using this

/-- Claim C2. `findNearestSquare` returns `-1` exactly when no tile qualifies (directional
delta of the correct strict sign, absolute perpendicular offset strictly below
`squareSize`). Otherwise it returns the index of a qualifying tile whose Euclidean
distance to the current tile is least among all qualifying tiles, and is the first
such index: every qualifying tile before it is strictly farther. -/
theorem findNearestSquare_nearest_qualifying (squareSize : Int) (squares : List Square)
    (currentSquare : Square) (direction : String) :
    (findNearestSquare squareSize squares currentSquare direction = -1 ↔
      ∀ sq ∈ squares, ¬ Qualifies squareSize currentSquare direction sq)
    ∧ (findNearestSquare squareSize squares currentSquare direction ≠ -1 →
      ∃ i : Nat, ∃ sq, findNearestSquare squareSize squares currentSquare direction = (i : Int)
        ∧ squares[i]? = some sq ∧ Qualifies squareSize currentSquare direction sq
        ∧ ∀ j sq0, squares[j]? = some sq0 → Qualifies squareSize currentSquare direction sq0 →
            Real.sqrt (distanceSq currentSquare sq : Int) ≤
              Real.sqrt (distanceSq currentSquare sq0 : Int)
            ∧ (j < i → Real.sqrt (distanceSq currentSquare sq : Int) <
              Real.sqrt (distanceSq currentSquare sq0 : Int))) := by
  have hinv := nearestInv_result squareSize squares currentSquare direction
  unfold findNearestSquare
  rcases hinv with ⟨hidx, _, hnone⟩ | ⟨i, sq, hidx, hget, hqs, _, hbest⟩
  · exact ⟨⟨fun _ => hnone, fun _ => hidx⟩, fun h => absurd hidx h⟩
  · constructor
    · constructor
      · intro h
        rw [hidx] at h
        omega
      · intro h
        exact absurd hqs (h sq (List.getElem?_mem hget))
    · intro _
      refine ⟨i, sq, hidx, hget, hqs, ?_⟩
      intro j sq0 hj hq0
      obtain ⟨hle, hlt⟩ := hbest j sq0 hj hq0
      refine ⟨Real.sqrt_le_sqrt (by exact_mod_cast hle), fun h => ?_⟩
      exact Real.sqrt_lt_sqrt (by exact_mod_cast distanceSq_nonneg _ _)
        (by exact_mod_cast hlt h)

/-- Witness for C2: among the tiles `(0,0)`, `(50,0)`, `(50,50)` a tile is found to the
right of `(0,0)`. -/
theorem findNearestSquare_nearest_qualifying_witness :
    findNearestSquare 50
        [{ relativeX := 0, relativeY := 0 }, { relativeX := 50, relativeY := 0 },
          { relativeX := 50, relativeY := 50 }] { relativeX := 0, relativeY := 0 } "right" = 1
    ∧ ∃ i : Nat, ∃ sq,
        findNearestSquare 50
          [{ relativeX := 0, relativeY := 0 }, { relativeX := 50, relativeY := 0 },
            { relativeX := 50, relativeY := 50 }] { relativeX := 0, relativeY := 0 } "right"
          = (i : Int)
        ∧ [({ relativeX := 0, relativeY := 0 } : Square), { relativeX := 50, relativeY := 0 },
            { relativeX := 50, relativeY := 50 }][i]? = some sq
        ∧ Qualifies 50 { relativeX := 0, relativeY := 0 } "right" sq
        ∧ ∀ j sq0,
            [({ relativeX := 0, relativeY := 0 } : Square), { relativeX := 50, relativeY := 0 },
              { relativeX := 50, relativeY := 50 }][j]? = some sq0 →
            Qualifies 50 { relativeX := 0, relativeY := 0 } "right" sq0 →
            Real.sqrt (distanceSq { relativeX := 0, relativeY := 0 } sq : Int) ≤
              Real.sqrt (distanceSq { relativeX := 0, relativeY := 0 } sq0 : Int)
            ∧ (j < i → Real.sqrt (distanceSq { relativeX := 0, relativeY := 0 } sq : Int) <
              Real.sqrt (distanceSq { relativeX := 0, relativeY := 0 } sq0 : Int)) :=
  ⟨by decide,
    (findNearestSquare_nearest_qualifying 50
      [{ relativeX := 0, relativeY := 0 }, { relativeX := 50, relativeY := 0 },
        { relativeX := 50, relativeY := 50 }] { relativeX := 0, relativeY := 0 } "right").2
      (by decide)⟩

/-! ## Layout generation -/

theorem mem_of_getAt {α : Type} (arr : List α) (i : Int) (x : α)
    (h : getAt arr i = some x) : x ∈ arr := by
  unfold getAt at h
  split_ifs at h
  exact List.getElem?_mem h

theorem mem_adjacentPositions (squareSize : Int) (position : Offset)
    (h : position ∈ adjacentPositions squareSize) :
    (position.dx = 0 ∨ position.dx = squareSize ∨ position.dx = -squareSize)
    ∧ (position.dy = 0 ∨ position.dy = squareSize ∨ position.dy = -squareSize) := by
  simp only [adjacentPositions, List.mem_cons, List.mem_singleton, List.not_mem_nil,
    or_false] at h
  rcases h with h | h | h | h | h | h | h | h <;> subst h <;> simp

/-- What one call of `addAdjacentSquare` does when it does not throw: it reads a base
tile of the list and an offset of the table, and either leaves the list as it is or
appends the tile at base plus offset, which was at no tile's position. -/
theorem addAdjacentSquare_cases (squareSize : Int) (squares : List Square) (r1 r2 : ℚ)
    (out : List Square) (h : addAdjacentSquare squareSize squares r1 r2 = some out) :
    ∃ baseSquare ∈ squares, ∃ position ∈ adjacentPositions squareSize,
      out = squares
      ∨ (out = squares ++ [{ relativeX := baseSquare.relativeX + position.dx
                             relativeY := baseSquare.relativeY + position.dy }]
          ∧ ∀ sq ∈ squares, ¬ (sq.relativeX = baseSquare.relativeX + position.dx
              ∧ sq.relativeY = baseSquare.relativeY + position.dy)) := by
  unfold addAdjacentSquare at h
  split at h
  · rename_i baseSquare position hb hp
    refine ⟨baseSquare, mem_of_getAt _ _ _ hb, position, mem_of_getAt _ _ _ hp, ?_⟩
    simp only at h
    split_ifs at h with hocc
    · right
      cases h
      refine ⟨rfl, ?_⟩
      intro sq hsq hpos
      simp only [Bool.not_eq_true', List.any_eq_false, Bool.and_eq_true, beq_iff_eq] at hocc
      exact hocc sq hsq hpos
    · left
      cases h
      rfl
  · exact Option.noConfusion h

theorem generateLoop_invariant (squareSize additionalSquares : Int)
    (P : List Square → Prop)
    (hstep : ∀ squares r1 r2 out, P squares →
      (squares.length : Int) < additionalSquares + 1 →
      addAdjacentSquare squareSize squares r1 r2 = some out → P out) :
    ∀ (rs : List ℚ) (squares out : List Square), P squares →
      generateLoop squareSize additionalSquares rs squares = some out →
      P out ∧ ¬ ((out.length : Int) < additionalSquares + 1) := by
  intro rs squares
  induction rs, squares using generateLoop.induct squareSize additionalSquares with
  | case1 squares hlt =>
    intro out _ h
    simp [generateLoop, hlt] at h
  | case2 squares hge =>
    intro out hP h
    simp only [generateLoop, if_neg hge, Option.some.injEq] at h
    subst h
    exact ⟨hP, hge⟩
  | case3 r squares hlt =>
    intro out _ h
    simp [generateLoop, hlt] at h
  | case4 r squares hge =>
    intro out hP h
    simp only [generateLoop, if_neg hge, Option.some.injEq] at h
    subst h
    exact ⟨hP, hge⟩
  | case5 r1 r2 rest squares hlt next hadd ih =>
    intro out hP h
    simp only [generateLoop, if_pos hlt, hadd] at h
    exact ih out (hstep squares r1 r2 next hP hlt hadd) h
  | case6 r1 r2 rest squares hlt hadd =>
    intro out _ h
    simp [generateLoop, hlt, hadd] at h
  | case7 r1 r2 rest squares hge =>
    intro out hP h
    simp only [generateLoop, if_neg hge, Option.some.injEq] at h
    subst h
    exact ⟨hP, hge⟩

theorem generateSquares_invariant (squareSize : Int) (P : List Square → Prop)
    (hinit : P [{ relativeX := 0, relativeY := 0 }])
    (hstep : ∀ squares r1 r2 out, P squares →
      addAdjacentSquare squareSize squares r1 r2 = some out → P out)
    (rs : List ℚ) (out : List Square) (h : generateSquares squareSize [] rs = some out) :
    P out := by
  cases rs with
  | nil => exact Option.noConfusion h
  | cons r rest =>
    simp only [generateSquares, List.nil_append] at h
    exact (generateLoop_invariant squareSize _ P
      (fun squares r1 r2 out hP _ hadd => hstep squares r1 r2 out hP hadd) rest _ out hinit h).1

theorem distinctPositions_snoc (squares : List Square) (x : Square)
    (hd : DistinctPositions squares)
    (hx : ∀ sq ∈ squares, ¬ (sq.relativeX = x.relativeX ∧ sq.relativeY = x.relativeY)) :
    DistinctPositions (squares ++ [x]) := by
  unfold DistinctPositions at *
  rw [List.pairwise_append]
  refine ⟨hd, List.pairwise_singleton _ _, ?_⟩
  intro a ha b hb
  rw [List.mem_singleton.mp hb]
  exact hx a ha

theorem addAdjacentSquare_distinct (squareSize : Int) (squares : List Square) (r1 r2 : ℚ)
    (out : List Square) (hd : DistinctPositions squares)
    (h : addAdjacentSquare squareSize squares r1 r2 = some out) : DistinctPositions out := by
  obtain ⟨baseSquare, _, position, _, h | ⟨h, hfree⟩⟩ :=
    addAdjacentSquare_cases squareSize squares r1 r2 out h
  · rw [h]; exact hd
  · rw [h]; exact distinctPositions_snoc _ _ hd hfree

/-- The tile list after `updateAndDrawCubeOnSquare` is the old list, or the old list
with one red tile appended at a position no tile had. -/
theorem updateAndDrawCubeOnSquare_squares (squareSize : Int) (s out : Scene)
    (squareIndex : Int) (direction : String)
    (h : updateAndDrawCubeOnSquare squareSize s squareIndex direction = some out) :
    out.squares = s.squares
    ∨ ∃ newX newY : Int,
        (∀ sq ∈ s.squares, ¬ (sq.relativeX = newX ∧ sq.relativeY = newY))
        ∧ out.squares
            = s.squares ++ [{ relativeX := newX, relativeY := newY, color := some "red" }] := by
  unfold updateAndDrawCubeOnSquare at h
  by_cases hidx : squareIndex = -1
  · rw [if_pos hidx] at h
    cases hget : getAt s.squares s.currentTargetSquareIndex with
    | none =>
      rw [hget] at h
      exact Option.noConfusion h
    | some currentSquare =>
      rw [hget] at h
      simp only at h
      generalize (if direction = "left" then
          (currentSquare.relativeX - squareSize, currentSquare.relativeY)
        else if direction = "right" then
          (currentSquare.relativeX + squareSize, currentSquare.relativeY)
        else if direction = "up" then
          (currentSquare.relativeX, currentSquare.relativeY - squareSize)
        else if direction = "down" then
          (currentSquare.relativeX, currentSquare.relativeY + squareSize)
        else (currentSquare.relativeX, currentSquare.relativeY)) = target at h
      obtain ⟨newX, newY⟩ := target
      simp only [Option.some.injEq] at h
      subst h
      by_cases hex : squareExistsAtPosition s.squares newX newY = true
      · left
        simp [hex]
      · right
        refine ⟨newX, newY, ?_, ?_⟩
        · intro sq hsq hpos
          exact hex ((squareExistsAtPosition_iff _ _ _).mpr ⟨sq, hsq, hpos⟩)
        · simp [hex, addNewSquareAtPosition]
  · rw [if_neg hidx] at h
    simp only [Option.some.injEq] at h
    subst h
    exact Or.inl rfl

theorem updateAndDrawCubeOnSquare_distinct (squareSize : Int) (s out : Scene)
    (squareIndex : Int) (direction : String) (hd : DistinctPositions s.squares)
    (h : updateAndDrawCubeOnSquare squareSize s squareIndex direction = some out) :
    DistinctPositions out.squares := by
  rcases updateAndDrawCubeOnSquare_squares squareSize s out squareIndex direction h with
    h | ⟨newX, newY, hfree, h⟩
  · rw [h]; exact hd
  · rw [h]; exact distinctPositions_snoc _ _ hd hfree

theorem generateSquares_sample : generateSquares 50 [] sampleDraws = some sampleLayout := by
  decide!

/-- Claim C3. No two tiles share a position: the list `generateSquares` produces from the
empty array is pairwise distinct in position on every sequence of draws on which it
exits, and `addAdjacentSquare` and `updateAndDrawCubeOnSquare` both keep a list
pairwise distinct in position. -/
theorem tile_positions_distinct (squareSize : Int) :
    (∀ (rs : List ℚ) (out : List Square),
      generateSquares squareSize [] rs = some out → DistinctPositions out)
    ∧ (∀ (squares : List Square) (r1 r2 : ℚ) (out : List Square),
      DistinctPositions squares →
      addAdjacentSquare squareSize squares r1 r2 = some out → DistinctPositions out)
    ∧ (∀ (s : Scene) (squareIndex : Int) (direction : String) (out : Scene),
      DistinctPositions s.squares →
      updateAndDrawCubeOnSquare squareSize s squareIndex direction = some out →
      DistinctPositions out.squares) := by
  refine ⟨?_, ?_, ?_⟩
  · intro rs out h
    refine generateSquares_invariant squareSize DistinctPositions ?_ ?_ rs out h
    · exact List.pairwise_singleton _ _
    · intro squares r1 r2 next hd hadd
      exact addAdjacentSquare_distinct squareSize squares r1 r2 next hd hadd
  · intro squares r1 r2 out hd h
    exact addAdjacentSquare_distinct squareSize squares r1 r2 out hd h
  · intro s squareIndex direction out hd h
    exact updateAndDrawCubeOnSquare_distinct squareSize s out squareIndex direction hd h

/-- Witness for C3: `generateSquares` exits on `sampleDraws`, and its ten tiles are
pairwise distinct in position. -/
theorem tile_positions_distinct_witness :
    generateSquares 50 [] sampleDraws = some sampleLayout ∧ DistinctPositions sampleLayout :=
  ⟨generateSquares_sample,
    (tile_positions_distinct 50).1 sampleDraws sampleLayout generateSquares_sample⟩

/-! ### Tile count -/

theorem floor_mul_bounds (r : ℚ) (n : Nat) (h0 : 0 ≤ r) (h1 : r < 1) (hn : 0 < n) :
    0 ≤ Rat.floor (r * n) ∧ Rat.floor (r * n) ≤ (n : Int) - 1 := by
  have hnq : (0 : ℚ) < n := by exact_mod_cast hn
  constructor
  · rw [Rat.le_floor]
    simpa using mul_nonneg h0 hnq.le
  · have : ¬ ((n : Int) ≤ Rat.floor (r * n)) := by
      rw [Rat.le_floor]
      push_cast
      nlinarith
    omega

theorem addAdjacentSquare_length (squareSize : Int) (squares : List Square) (r1 r2 : ℚ)
    (out : List Square) (h : addAdjacentSquare squareSize squares r1 r2 = some out) :
    out.length = squares.length ∨ out.length = squares.length + 1 := by
  obtain ⟨_, _, _, _, h | ⟨h, _⟩⟩ := addAdjacentSquare_cases squareSize squares r1 r2 out h
  · rw [h]; exact Or.inl rfl
  · rw [h]; exact Or.inr (by simp)

/-- Claim C4. For a count draw `r` in `[0, 1)`, the number of additional tiles
`floor(r * 25) + 9` lies in `[9, 33]`; each `addAdjacentSquare` call adds no tile or
one; and whenever `generateSquares` exits, the tile list has exactly that number plus
one tiles, so between 10 and 34. -/
theorem generateSquares_count (squareSize : Int) (r : ℚ) (h0 : 0 ≤ r) (h1 : r < 1) :
    (9 ≤ Rat.floor (r * 25) + 9 ∧ Rat.floor (r * 25) + 9 ≤ 33)
    ∧ (∀ (squares : List Square) (r1 r2 : ℚ) (out : List Square),
      addAdjacentSquare squareSize squares r1 r2 = some out →
      out.length = squares.length ∨ out.length = squares.length + 1)
    ∧ ∀ (rest : List ℚ) (out : List Square),
      generateSquares squareSize [] (r :: rest) = some out →
      (out.length : Int) = (Rat.floor (r * 25) + 9) + 1
        ∧ 10 ≤ out.length ∧ out.length ≤ 34 := by
  have hb := floor_mul_bounds r 25 h0 h1 (by norm_num)
  simp only [Nat.cast_ofNat] at hb
  refine ⟨⟨by omega, by omega⟩, addAdjacentSquare_length squareSize, ?_⟩
  intro rest out h
  simp only [generateSquares, List.nil_append] at h
  have hinv := generateLoop_invariant squareSize (Rat.floor (r * 25) + 9)
    (fun squares => (squares.length : Int) ≤ (Rat.floor (r * 25) + 9) + 1) ?_ rest _ out
    (by simp; omega) h
  · obtain ⟨hle, hge⟩ := hinv
    have heq : (out.length : Int) = (Rat.floor (r * 25) + 9) + 1 := by omega
    exact ⟨heq, by omega, by omega⟩
  · intro squares r1 r2 next _ hlt hadd
    rcases addAdjacentSquare_length squareSize squares r1 r2 next hadd with h | h <;>
      rw [h] <;> push_cast <;> omega

/-- Witness for C4: with count draw `0` the target is 9 additional tiles, and on
`sampleDraws` the layout has ten tiles. -/
theorem generateSquares_count_witness :
    (0 : ℚ) ≤ 0 ∧ (0 : ℚ) < 1
    ∧ generateSquares 50 [] (0 :: sampleDraws.tail) = some sampleLayout
    ∧ (sampleLayout.length : Int) = (Rat.floor ((0 : ℚ) * 25) + 9) + 1
    ∧ 10 ≤ sampleLayout.length ∧ sampleLayout.length ≤ 34 :=
  ⟨le_refl 0, by norm_num, generateSquares_sample,
    (generateSquares_count 50 0 (le_refl 0) (by norm_num)).2.2 sampleDraws.tail sampleLayout
      generateSquares_sample⟩

/-! ### Connectedness -/

theorem grownFromOrigin_snoc (squareSize : Int) (squares : List Square)
    (baseSquare : Square) (position : Offset)
    (hg : GrownFromOrigin squareSize squares) (hb : baseSquare ∈ squares)
    (hp : position ∈ adjacentPositions squareSize)
    (hfree : ∀ sq ∈ squares, ¬ (sq.relativeX = baseSquare.relativeX + position.dx
      ∧ sq.relativeY = baseSquare.relativeY + position.dy)) :
    GrownFromOrigin squareSize
      (squares ++ [{ relativeX := baseSquare.relativeX + position.dx
                     relativeY := baseSquare.relativeY + position.dy }]) := by
  obtain ⟨⟨first, hfirst, hx, hy⟩, hprev⟩ := hg
  refine ⟨⟨first, getElem?_snoc_left _ _ _ _ hfirst, hx, hy⟩, ?_⟩
  intro j sq hj hget
  rcases getElem?_snoc_cases _ _ _ _ hget with ⟨_, hold⟩ | ⟨hlen, hnew⟩
  · obtain ⟨i, base, hij, hbase, hadj⟩ := hprev j sq hj hold
    exact ⟨i, base, hij, getElem?_snoc_left _ _ _ _ hbase, hadj⟩
  · obtain ⟨i, hi⟩ := List.mem_iff_getElem?.mp hb
    have hilt := lt_length_of_getElem? _ _ _ hi
    refine ⟨i, baseSquare, by omega, getElem?_snoc_left _ _ _ _ hi, ?_⟩
    obtain ⟨hdx, hdy⟩ := mem_adjacentPositions squareSize position hp
    subst hnew
    refine ⟨?_, ?_, ?_⟩
    · simp only [add_sub_cancel_left]
      exact hdx
    · simp only [add_sub_cancel_left]
      exact hdy
    · intro hsame
      exact hfree baseSquare hb ⟨hsame.1.symm, hsame.2.symm⟩

theorem addAdjacentSquare_grown (squareSize : Int) (squares : List Square) (r1 r2 : ℚ)
    (out : List Square) (hg : GrownFromOrigin squareSize squares)
    (h : addAdjacentSquare squareSize squares r1 r2 = some out) :
    GrownFromOrigin squareSize out := by
  obtain ⟨baseSquare, hb, position, hp, h | ⟨h, hfree⟩⟩ :=
    addAdjacentSquare_cases squareSize squares r1 r2 out h
  · rw [h]; exact hg
  · rw [h]; exact grownFromOrigin_snoc squareSize squares baseSquare position hg hb hp hfree

theorem grownFromOrigin_reachable (squareSize : Int) (squares : List Square)
    (first : Square) (hfirst : squares[0]? = some first)
    (hg : GrownFromOrigin squareSize squares) :
    ∀ (j : Nat) (sq : Square), squares[j]? = some sq →
      Relation.ReflTransGen (AdjacentIn squareSize squares) first sq := by
  intro j
  induction j using Nat.strong_induction_on with
  | _ j ih =>
    intro sq hget
    rcases Nat.eq_zero_or_pos j with hj | hj
    · subst hj
      rw [hfirst] at hget
      cases hget
      exact Relation.ReflTransGen.refl
    · obtain ⟨i, base, hij, hbase, hadj⟩ := hg.2 j sq hj hget
      exact Relation.ReflTransGen.tail (ih i hij base hbase)
        ⟨List.getElem?_mem hbase, List.getElem?_mem hget, hadj⟩

/-- Claim C5. The generated layout is seeded at the origin and connected: on every
sequence of draws on which `generateSquares` exits, the first tile is `(0, 0)`, every
other tile is lattice-adjacent to a tile earlier in the list (each coordinate differs
by `0` or plus or minus `squareSize`, and not both by `0`), and every tile is reachable
from the first through lattice-adjacent tiles of the list. -/
theorem generateSquares_connected (squareSize : Int) (rs : List ℚ) (out : List Square)
    (h : generateSquares squareSize [] rs = some out) :
    out[0]? = some { relativeX := 0, relativeY := 0 }
    ∧ (∀ j sq, 0 < j → out[j]? = some sq →
        ∃ i base, i < j ∧ out[i]? = some base ∧ LatticeAdjacent squareSize base sq)
    ∧ ∀ sq ∈ out,
        Relation.ReflTransGen (AdjacentIn squareSize out)
          { relativeX := 0, relativeY := 0 } sq := by
  have hinv := generateSquares_invariant squareSize
    (fun squares => squares[0]? = some { relativeX := 0, relativeY := 0 }
      ∧ GrownFromOrigin squareSize squares) ?_ ?_ rs out h
  · obtain ⟨hfirst, hg⟩ := hinv
    refine ⟨hfirst, hg.2, ?_⟩
    intro sq hsq
    obtain ⟨j, hj⟩ := List.mem_iff_getElem?.mp hsq
    exact grownFromOrigin_reachable squareSize out _ hfirst hg j sq hj
  · refine ⟨rfl, ⟨_, rfl, rfl, rfl⟩, ?_⟩
    intro j sq hj hget
    rw [List.getElem?_eq_none (by simpa using hj)] at hget
    exact Option.noConfusion hget
  · intro squares r1 r2 next ⟨hfirst, hg⟩ hadd
    refine ⟨?_, addAdjacentSquare_grown squareSize squares r1 r2 next hg hadd⟩
    obtain ⟨_, _, _, _, h | ⟨h, _⟩⟩ := addAdjacentSquare_cases squareSize squares r1 r2 next hadd
    · rw [h]; exact hfirst
    · rw [h]; exact getElem?_snoc_left _ _ _ _ hfirst

/-- Witness for C5: the layout built from `sampleDraws` starts at the origin and is
connected. -/
theorem generateSquares_connected_witness :
    generateSquares 50 [] sampleDraws = some sampleLayout
    ∧ sampleLayout[0]? = some { relativeX := 0, relativeY := 0 }
    ∧ (∀ j sq, 0 < j → sampleLayout[j]? = some sq →
        ∃ i base, i < j ∧ sampleLayout[i]? = some base ∧ LatticeAdjacent 50 base sq)
    ∧ ∀ sq ∈ sampleLayout,
        Relation.ReflTransGen (AdjacentIn 50 sampleLayout)
          { relativeX := 0, relativeY := 0 } sq :=
  ⟨generateSquares_sample,
    generateSquares_connected 50 sampleDraws sampleLayout generateSquares_sample⟩

/-! ## Transforms and projections -/

/-- Claim C6. `rotateXY` returns exactly `x' = cosY * x + sinY * z`,
`y' = cosX * y - sinX * (sinY * x - cosY * z)`,
`z' = cosX * (sinY * x - cosY * z) + sinX * y`, for every point and angles; at
`angleX = π/6`, `angleY = π/4` and the point `(1, 2, 3)` this is
`(2√2, √3 + √2/2, 1 - √3 * √2 / 2)`. -/
theorem rotateXY_closed_form :
    (∀ (x y z angleX angleY : ℝ),
      rotateXY Real.cos Real.sin { x := x, y := y, z := z } angleX angleY =
        { x := Real.cos angleY * x + Real.sin angleY * z
          y := Real.cos angleX * y
            - Real.sin angleX * (Real.sin angleY * x - Real.cos angleY * z)
          z := Real.cos angleX * (Real.sin angleY * x - Real.cos angleY * z)
            + Real.sin angleX * y })
    ∧ rotateXY Real.cos Real.sin { x := 1, y := 2, z := 3 } (Real.pi / 6) (Real.pi / 4) =
        { x := 2 * Real.sqrt 2
          y := Real.sqrt 3 + Real.sqrt 2 / 2
          z := 1 - Real.sqrt 3 * Real.sqrt 2 / 2 } := by
  refine ⟨fun x y z angleX angleY => rfl, ?_⟩
  simp only [rotateXY, Real.cos_pi_div_six, Real.sin_pi_div_six, Real.cos_pi_div_four,
    Real.sin_pi_div_four, Point3.mk.injEq]
  refine ⟨by ring, by ring, by ring⟩

/-- Counterexample to C7 as stated: at zero angles the point `(1, 1, 100)` projects to
`x' = 5/4`, not to `1 * 500 / (500 + 100) = 5/6`. -/
theorem perspective_zero_rotation_counterexample :
    (perspectiveProjection (500 : ℝ)
        (rotateXY Real.cos Real.sin
          (rotateZ Real.cos Real.sin { x := 1, y := 1, z := 100 } 0) 0 0)).x = 5 / 4
    ∧ (perspectiveProjection (500 : ℝ)
        (rotateXY Real.cos Real.sin
          (rotateZ Real.cos Real.sin { x := 1, y := 1, z := 100 } 0) 0 0)).x
      ≠ 1 * 500 / (500 + 100) := by
  simp only [perspectiveProjection, rotateXY, rotateZ, Real.cos_zero, Real.sin_zero]
  norm_num

/-- Claim C7, amended. At `xAngle = yAngle = zAngle = 0` the perspective pipeline
`perspectiveProjection(rotateXY(rotateZ(p, zAngle), xAngle, yAngle))` with `d = fov`
(500 in the source) yields `x' = x * d / (d - z)`, `y' = y * d / (d - z)` and
`z' = -z`: `rotateXY` negates the depth before the projection divides by `d + z'`. -/
theorem perspective_zero_rotation (fov x y z : ℝ) :
    perspectiveProjection fov
        (rotateXY Real.cos Real.sin
          (rotateZ Real.cos Real.sin { x := x, y := y, z := z } 0) 0 0) =
      { x := x * fov / (fov - z), y := y * fov / (fov - z), z := -z } := by
  simp only [perspectiveProjection, rotateXY, rotateZ, Real.cos_zero, Real.sin_zero,
    Point3.mk.injEq]
  refine ⟨?_, ?_, ?_⟩
  · congr 1 <;> ring
  · congr 1 <;> ring
  · ring

/-- Claim C9. `crossProduct(a, b)` is the component-wise negation of
`crossProduct(b, a)`. -/
theorem crossProduct_antisymm {α : Type} [Field α] (a b : α × α × α) :
    crossProduct a b =
      (-(crossProduct b a).1, -(crossProduct b a).2.1, -(crossProduct b a).2.2) := by
  simp only [crossProduct, Prod.mk.injEq]
  refine ⟨by ring, by ring, by ring⟩

theorem vec8_five {β : Type} (a0 a1 a2 a3 a4 a5 a6 a7 : β) :
    (![a0, a1, a2, a3, a4, a5, a6, a7] : Fin 8 → β) 5 = a5 := rfl

theorem vec8_six {β : Type} (a0 a1 a2 a3 a4 a5 a6 a7 : β) :
    (![a0, a1, a2, a3, a4, a5, a6, a7] : Fin 8 → β) 6 = a6 := rfl

theorem vec8_seven {β : Type} (a0 a1 a2 a3 a4 a5 a6 a7 : β) :
    (![a0, a1, a2, a3, a4, a5, a6, a7] : Fin 8 → β) 7 = a7 := rfl

/-- The cull test in the initial pose on the origin tile: only the front face has
`normal[2] < 0`. -/
theorem strokedFaces_initial :
    strokedFaces Real.cos Real.sin (500 : ℝ) 0 0 0 { relativeX := 0, relativeY := 0 } 16 =
      [false, false, true, false, false, false] := by
  simp only [strokedFaces, faces, faceNormal, cubeVertices, perspectiveProjection, rotateXY,
    rotateZ, crossProduct, Real.cos_zero, Real.sin_zero, List.map, Matrix.cons_val_zero,
    Matrix.cons_val_one, Matrix.head_cons, Matrix.cons_val_two, Matrix.cons_val_three,
    Matrix.cons_val_four, Matrix.tail_cons, vec8_five, vec8_six, vec8_seven]
  norm_num

/-- Counterexample to C8 as stated: in the initial pose on the origin tile the cull
test does not cull 3 faces; it culls 5. -/
theorem drawCube_initial_cull_counterexample :
    (strokedFaces Real.cos Real.sin (500 : ℝ) 0 0 0
        { relativeX := 0, relativeY := 0 } 16).count false ≠ 3
    ∧ (strokedFaces Real.cos Real.sin (500 : ℝ) 0 0 0
        { relativeX := 0, relativeY := 0 } 16).count false = 5 := by
  rw [strokedFaces_initial]
  decide

/-- Claim C8, amended. In the initial pose (`xAngle = yAngle = zAngle = 0`, cube size 16,
`fov` 500, active tile the origin tile) the cull test of `drawCube` strokes the front
face only and culls the other 5 faces (back, right, left, top, bottom): the only path
and stroke `drawCube` emits is the outline of the front face, while every face gets
its fill. -/
theorem drawCube_initial_cull (centerX centerY : ℝ) :
    strokedFaces Real.cos Real.sin (500 : ℝ) 0 0 0 { relativeX := 0, relativeY := 0 } 16 =
      [false, false, true, false, false, false]
    ∧ drawCube Real.cos Real.sin (500 : ℝ) 0 0 0
        { squares := [{ relativeX := 0, relativeY := 0 }], currentTargetSquareIndex := 0 }
        centerX centerY 16 =
      some [ CanvasOp.fillStyle "rgba(0, 255, 255, 1)", CanvasOp.fill,
             CanvasOp.fillStyle "rgba(0, 255, 255, 1)", CanvasOp.fill,
             CanvasOp.beginPath,
             CanvasOp.moveTo (4000 / 483 + centerX) (-(4000 / 483) + centerY),
             CanvasOp.lineTo (-(4000 / 483) + centerX) (-(4000 / 483) + centerY),
             CanvasOp.lineTo (-(4000 / 483) + centerX) (4000 / 483 + centerY),
             CanvasOp.lineTo (4000 / 483 + centerX) (4000 / 483 + centerY),
             CanvasOp.closePath, CanvasOp.stroke,
             CanvasOp.fillStyle "rgba(0, 255, 255, 1)", CanvasOp.fill,
             CanvasOp.fillStyle "rgba(0, 255, 255, 1)", CanvasOp.fill,
             CanvasOp.fillStyle "rgba(0, 255, 255, 1)", CanvasOp.fill,
             CanvasOp.fillStyle "rgba(0, 255, 255, 1)", CanvasOp.fill ] := by
  refine ⟨strokedFaces_initial, ?_⟩
  simp only [drawCube, getAt, drawFace, faces, faceNormal, cubeVertices, perspectiveProjection,
    rotateXY, rotateZ, crossProduct, Real.cos_zero, Real.sin_zero, List.map,
    Matrix.cons_val_zero, Matrix.cons_val_one, Matrix.head_cons, Matrix.cons_val_two,
    Matrix.cons_val_three, Matrix.cons_val_four, Matrix.tail_cons, vec8_five, vec8_six,
    vec8_seven, List.flatMap_cons, List.flatMap_nil]
  norm_num

/-! ## Rotations -/

/-- Claim C11. `rotateX`, `rotateY` and `rotateZ` are multiplication by the standard
right-handed rotation matrices about their axes; a quarter turn of `rotateZ` sends the
x axis to the y axis, of `rotateX` the y axis to the z axis, of `rotateY` the z axis to
the x axis; each leaves the coordinate of its own axis unchanged and preserves
`x² + y² + z²`. -/
theorem rotations_are_standard (point : Point3 ℝ) (angle : ℝ) :
    ((rotateX Real.cos Real.sin point angle).toVec =
        Matrix.mulVec (rotationMatrixX (Real.cos angle) (Real.sin angle)) point.toVec
      ∧ (rotateY Real.cos Real.sin point angle).toVec =
        Matrix.mulVec (rotationMatrixY (Real.cos angle) (Real.sin angle)) point.toVec
      ∧ (rotateZ Real.cos Real.sin point angle).toVec =
        Matrix.mulVec (rotationMatrixZ (Real.cos angle) (Real.sin angle)) point.toVec)
    ∧ (rotateZ Real.cos Real.sin { x := 1, y := 0, z := 0 } (Real.pi / 2) =
        { x := 0, y := 1, z := 0 }
      ∧ rotateX Real.cos Real.sin { x := 0, y := 1, z := 0 } (Real.pi / 2) =
        { x := 0, y := 0, z := 1 }
      ∧ rotateY Real.cos Real.sin { x := 0, y := 0, z := 1 } (Real.pi / 2) =
        { x := 1, y := 0, z := 0 })
    ∧ ((rotateX Real.cos Real.sin point angle).x = point.x
      ∧ (rotateY Real.cos Real.sin point angle).y = point.y
      ∧ (rotateZ Real.cos Real.sin point angle).z = point.z)
    ∧ (normSq (rotateX Real.cos Real.sin point angle) = normSq point
      ∧ normSq (rotateY Real.cos Real.sin point angle) = normSq point
      ∧ normSq (rotateZ Real.cos Real.sin point angle) = normSq point) := by
  have hcs := Real.cos_sq_add_sin_sq angle
  refine ⟨⟨?_, ?_, ?_⟩, ⟨?_, ?_, ?_⟩, ⟨rfl, rfl, rfl⟩, ⟨?_, ?_, ?_⟩⟩
  · funext i
    fin_cases i <;>
      simp [rotateX, Point3.toVec, rotationMatrixX, Matrix.mulVec, Matrix.dotProduct,
        Fin.sum_univ_three] <;> ring
  · funext i
    fin_cases i <;>
      simp [rotateY, Point3.toVec, rotationMatrixY, Matrix.mulVec, Matrix.dotProduct,
        Fin.sum_univ_three] <;> ring
  · funext i
    fin_cases i <;>
      simp [rotateZ, Point3.toVec, rotationMatrixZ, Matrix.mulVec, Matrix.dotProduct,
        Fin.sum_univ_three] <;> ring
  · simp [rotateZ]
  · simp [rotateX]
  · simp [rotateY]
  · simp only [normSq, rotateX]
    linear_combination (point.y * point.y + point.z * point.z) * hcs
  · simp only [normSq, rotateY]
    linear_combination (point.x * point.x + point.z * point.z) * hcs
  · simp only [normSq, rotateZ]
    linear_combination (point.x * point.x + point.y * point.y) * hcs

/-- Claim C15. `rotateXY` is not the composition of the single-axis rotations: for the
point `(0, 0, 1)` and both angles `0`, `rotateXY` gives `(0, 0, -1)` while
`rotateX(rotateY(p, angleY), angleX)` gives `(0, 0, 1)`. -/
theorem rotateXY_ne_rotateX_rotateY :
    ∃ (point : Point3 ℝ) (angleX angleY : ℝ),
      rotateXY Real.cos Real.sin point angleX angleY ≠
        rotateX Real.cos Real.sin (rotateY Real.cos Real.sin point angleY) angleX := by
  refine ⟨{ x := 0, y := 0, z := 1 }, 0, 0, ?_⟩
  simp only [rotateXY, rotateX, rotateY, Real.cos_zero, Real.sin_zero, ne_eq,
    Point3.mk.injEq, not_and]
  intro _ _
  norm_num

/-- Claim C19. `rotateXY` is the mirrored composition
`rotateX(negZ(rotateY(p, angleY)), angleX)`, where `negZ` negates the z coordinate; at
zero angles it returns `(x, y, -z)`; and it preserves `x² + y² + z²`. -/
theorem rotateXY_mirrored_composition (point : Point3 ℝ) (angleX angleY : ℝ) :
    rotateXY Real.cos Real.sin point angleX angleY =
      rotateX Real.cos Real.sin (negZ (rotateY Real.cos Real.sin point angleY)) angleX
    ∧ rotateXY Real.cos Real.sin point 0 0 = { x := point.x, y := point.y, z := -point.z }
    ∧ normSq (rotateXY Real.cos Real.sin point angleX angleY) = normSq point := by
  have hx := Real.cos_sq_add_sin_sq angleX
  have hy := Real.cos_sq_add_sin_sq angleY
  refine ⟨?_, ?_, ?_⟩
  · simp only [rotateXY, rotateX, rotateY, negZ, Point3.mk.injEq]
    refine ⟨by ring, by ring, by ring⟩
  · simp [rotateXY]
  · simp only [normSq, rotateXY]
    linear_combination
      ((Real.sin angleY * point.x - Real.cos angleY * point.z) ^ 2
        + point.y * point.y) * hx
      + (point.x * point.x + point.z * point.z) * hy

/-! ## Arrow-key navigation -/

theorem getAt_isSome_iff {α : Type} (arr : List α) (i : Int) :
    (∃ x, getAt arr i = some x) ↔ 0 ≤ i ∧ i < (arr.length : Int) := by
  unfold getAt
  constructor
  · rintro ⟨x, hx⟩
    split_ifs at hx with h0
    have := lt_length_of_getElem? _ _ _ hx
    exact ⟨h0, by omega⟩
  · rintro ⟨h0, h1⟩
    rw [if_pos h0]
    have hlt : i.toNat < arr.length := by omega
    exact ⟨arr[i.toNat], List.getElem?_eq_getElem hlt⟩

theorem getAt_natCast {α : Type} (arr : List α) (i : Nat) :
    getAt arr (i : Int) = arr[i]? := by
  simp [getAt]

/-- The result of `findNearestSquare` is `-1` with no qualifying tile in the list, or
the index of a qualifying tile. -/
theorem findNearestSquare_cases (squareSize : Int) (squares : List Square)
    (currentSquare : Square) (direction : String) :
    (findNearestSquare squareSize squares currentSquare direction = -1
      ∧ ∀ sq ∈ squares, ¬ Qualifies squareSize currentSquare direction sq)
    ∨ ∃ i : Nat, ∃ sq,
        findNearestSquare squareSize squares currentSquare direction = (i : Int)
        ∧ squares[i]? = some sq ∧ Qualifies squareSize currentSquare direction sq := by
  have hinv := nearestInv_result squareSize squares currentSquare direction
  unfold findNearestSquare
  rcases hinv with ⟨hidx, _, hnone⟩ | ⟨i, sq, hidx, hget, hqs, _, _⟩
  · exact Or.inl ⟨hidx, hnone⟩
  · exact Or.inr ⟨i, sq, hidx, hget, hqs⟩

/-- With a defined active tile, `updateAndDrawCubeOnSquare(-1, direction)` navigates to
the position the direction chain computes from that tile. -/
theorem updateAndDrawCubeOnSquare_navigate (squareSize : Int) (s : Scene)
    (currentSquare : Square) (direction : String)
    (hcur : getAt s.squares s.currentTargetSquareIndex = some currentSquare) :
    ∃ newX newY : Int,
      (newX, newY) =
        (if direction = "left" then
          (currentSquare.relativeX - squareSize, currentSquare.relativeY)
        else if direction = "right" then
          (currentSquare.relativeX + squareSize, currentSquare.relativeY)
        else if direction = "up" then
          (currentSquare.relativeX, currentSquare.relativeY - squareSize)
        else if direction = "down" then
          (currentSquare.relativeX, currentSquare.relativeY + squareSize)
        else (currentSquare.relativeX, currentSquare.relativeY))
      ∧ updateAndDrawCubeOnSquare squareSize s (-1) direction =
        some { squares :=
                 if !squareExistsAtPosition s.squares newX newY then
                   addNewSquareAtPosition s.squares newX newY
                 else s.squares
               currentTargetSquareIndex :=
                 findIndex (fun sq => sq.relativeX == newX && sq.relativeY == newY)
                   (if !squareExistsAtPosition s.squares newX newY then
                     addNewSquareAtPosition s.squares newX newY
                   else s.squares) } := by
  simp only [updateAndDrawCubeOnSquare, hcur, if_true]
  generalize (if direction = "left" then
      (currentSquare.relativeX - squareSize, currentSquare.relativeY)
    else if direction = "right" then
      (currentSquare.relativeX + squareSize, currentSquare.relativeY)
    else if direction = "up" then
      (currentSquare.relativeX, currentSquare.relativeY - squareSize)
    else if direction = "down" then
      (currentSquare.relativeX, currentSquare.relativeY + squareSize)
    else (currentSquare.relativeX, currentSquare.relativeY)) = target
  obtain ⟨newX, newY⟩ := target
  exact ⟨newX, newY, rfl, rfl⟩

/-- Navigation with `-1` from a defined active tile ends on a defined active tile. -/
theorem updateAndDrawCubeOnSquare_navigate_valid (squareSize : Int) (s : Scene)
    (currentSquare : Square) (direction : String)
    (hcur : getAt s.squares s.currentTargetSquareIndex = some currentSquare) :
    ∃ out, updateAndDrawCubeOnSquare squareSize s (-1) direction = some out
      ∧ ValidIndex out := by
  obtain ⟨newX, newY, _, hupd⟩ :=
    updateAndDrawCubeOnSquare_navigate squareSize s currentSquare direction hcur
  refine ⟨_, hupd, ?_⟩
  have hnav := navigate_to_position s newX newY
  by_cases hex : ∃ sq ∈ s.squares, sq.relativeX = newX ∧ sq.relativeY = newY
  · obtain ⟨h1, j, h2, sq, h3, _⟩ := hnav.2 hex
    have hj := lt_length_of_getElem? _ _ _ h3
    simp only [ValidIndex]
    rw [h2, h1]
    exact ⟨by omega, by omega⟩
  · have hno : ∀ sq ∈ s.squares, ¬ (sq.relativeX = newX ∧ sq.relativeY = newY) :=
      fun sq hsq hpos => hex ⟨sq, hsq, hpos⟩
    obtain ⟨h1, h2⟩ := hnav.1 hno
    simp only [ValidIndex]
    rw [h2, h1]
    simp

theorem updateAndDrawCubeOnSquare_of_index (squareSize : Int) (s : Scene) (i : Nat)
    (direction : String) :
    updateAndDrawCubeOnSquare squareSize s (i : Int) direction =
      some { squares := s.squares, currentTargetSquareIndex := (i : Int) } := by
  unfold updateAndDrawCubeOnSquare
  rw [if_neg (by omega)]

/-- One arrow-key step, `findNearestSquare` then `updateAndDrawCubeOnSquare`, from a
defined active tile ends on a defined active tile. -/
theorem navigation_step_valid (squareSize : Int) (s : Scene) (currentSquare : Square)
    (direction : String)
    (hcur : getAt s.squares s.currentTargetSquareIndex = some currentSquare) :
    ∃ out,
      updateAndDrawCubeOnSquare squareSize s
        (findNearestSquare squareSize s.squares currentSquare direction) direction = some out
      ∧ ValidIndex out := by
  rcases findNearestSquare_cases squareSize s.squares currentSquare direction with
    ⟨hres, _⟩ | ⟨i, sq, hres, hget, _⟩
  · rw [hres]
    exact updateAndDrawCubeOnSquare_navigate_valid squareSize s currentSquare direction hcur
  · rw [hres, updateAndDrawCubeOnSquare_of_index]
    refine ⟨_, rfl, ?_⟩
    have hi := lt_length_of_getElem? _ _ _ hget
    simp only [ValidIndex]
    exact ⟨by omega, by omega⟩

theorem addAdjacentSquare_ne_nil (squareSize : Int) (squares : List Square) (r1 r2 : ℚ)
    (out : List Square) (hne : squares ≠ [])
    (h : addAdjacentSquare squareSize squares r1 r2 = some out) : out ≠ [] := by
  obtain ⟨_, _, _, _, h | ⟨h, _⟩⟩ := addAdjacentSquare_cases squareSize squares r1 r2 out h
  · rw [h]; exact hne
  · rw [h]; simp

/-- Claim C12. Arrow-key navigation always succeeds and keeps the active index valid:
from a scene with `0 ≤ currentTargetSquareIndex < squares.length`, for every direction,
`findNearestSquare` followed by `updateAndDrawCubeOnSquare` returns a scene whose index
again satisfies `0 ≤ index < squares.length` (so it is not `-1`, and
`squares[currentTargetSquareIndex]` is defined); the same holds for `keyBoardEvents` on
every key, and for the list `generateSquares` produces with index `0`. -/
theorem navigation_keeps_index_valid (squareSize : Int) :
    (∀ (s : Scene) (direction : String), ValidIndex s →
      ∃ currentSquare, getAt s.squares s.currentTargetSquareIndex = some currentSquare
        ∧ ∃ out,
          updateAndDrawCubeOnSquare squareSize s
            (findNearestSquare squareSize s.squares currentSquare direction) direction
            = some out
          ∧ ValidIndex out ∧ out.currentTargetSquareIndex ≠ -1
          ∧ ∃ targetSquare, getAt out.squares out.currentTargetSquareIndex = some targetSquare)
    ∧ (∀ (s : Scene) (key : String), ValidIndex s →
      ∃ out, keyBoardEvents squareSize s key = some out ∧ ValidIndex out)
    ∧ (∀ (rs : List ℚ) (out : List Square), generateSquares squareSize [] rs = some out →
      ValidIndex { squares := out, currentTargetSquareIndex := 0 }) := by
  refine ⟨?_, ?_, ?_⟩
  · intro s direction hv
    obtain ⟨currentSquare, hcur⟩ := (getAt_isSome_iff _ _).mpr hv
    obtain ⟨out, hout, hvo⟩ := navigation_step_valid squareSize s currentSquare direction hcur
    refine ⟨currentSquare, hcur, out, hout, hvo, ?_, (getAt_isSome_iff _ _).mpr hvo⟩
    have := hvo.1
    omega
  · intro s key hv
    obtain ⟨currentSquare, hcur⟩ := (getAt_isSome_iff _ _).mpr hv
    unfold keyBoardEvents
    cases hdir : keyDirection key with
    | none => exact ⟨s, rfl, hv⟩
    | some direction =>
      simp only [hcur]
      exact navigation_step_valid squareSize s currentSquare direction hcur
  · intro rs out h
    have hne := generateSquares_invariant squareSize (fun squares => squares ≠ [])
      (by simp) (fun squares r1 r2 next hne hadd =>
        addAdjacentSquare_ne_nil squareSize squares r1 r2 next hne hadd) rs out h
    have hpos : 0 < out.length := List.length_pos.mpr hne
    simp only [ValidIndex]
    exact ⟨le_refl 0, by omega⟩

/-- Witness for C12: from the single origin tile with index `0`, the right arrow key
ends on a valid index. -/
theorem navigation_keeps_index_valid_witness :
    ValidIndex { squares := [{ relativeX := 0, relativeY := 0 }], currentTargetSquareIndex := 0 }
    ∧ ∃ out,
        keyBoardEvents 50
          { squares := [{ relativeX := 0, relativeY := 0 }], currentTargetSquareIndex := 0 }
          "ArrowRight" = some out
        ∧ ValidIndex out :=
  ⟨by simp [ValidIndex],
    (navigation_keeps_index_valid 50).2.1
      { squares := [{ relativeX := 0, relativeY := 0 }], currentTargetSquareIndex := 0 }
      "ArrowRight" (by simp [ValidIndex])⟩

/-! ## The lattice -/

theorem onLattice_snoc (squareSize : Int) (squares : List Square) (x : Square)
    (hl : OnLattice squareSize squares)
    (hx : squareSize ∣ x.relativeX ∧ squareSize ∣ x.relativeY) :
    OnLattice squareSize (squares ++ [x]) := by
  intro sq hsq
  rcases List.mem_append.mp hsq with h | h
  · exact hl sq h
  · rw [List.mem_singleton.mp h]
    exact hx

theorem addAdjacentSquare_onLattice (squareSize : Int) (squares : List Square) (r1 r2 : ℚ)
    (out : List Square) (hl : OnLattice squareSize squares)
    (h : addAdjacentSquare squareSize squares r1 r2 = some out) :
    OnLattice squareSize out := by
  obtain ⟨baseSquare, hb, position, hp, h | ⟨h, _⟩⟩ :=
    addAdjacentSquare_cases squareSize squares r1 r2 out h
  · rw [h]; exact hl
  · rw [h]
    apply onLattice_snoc _ _ _ hl
    obtain ⟨hbx, hby⟩ := hl baseSquare hb
    obtain ⟨hdx, hdy⟩ := mem_adjacentPositions squareSize position hp
    constructor
    · rcases hdx with h0 | h0 | h0 <;> rw [h0]
      · simpa using hbx
      · exact dvd_add hbx (dvd_refl _)
      · exact dvd_add hbx ((dvd_neg).mpr (dvd_refl _))
    · rcases hdy with h0 | h0 | h0 <;> rw [h0]
      · simpa using hby
      · exact dvd_add hby (dvd_refl _)
      · exact dvd_add hby ((dvd_neg).mpr (dvd_refl _))

theorem updateAndDrawCubeOnSquare_onLattice (squareSize : Int) (s out : Scene)
    (squareIndex : Int) (direction : String) (hl : OnLattice squareSize s.squares)
    (h : updateAndDrawCubeOnSquare squareSize s squareIndex direction = some out) :
    OnLattice squareSize out.squares := by
  by_cases hidx : squareIndex = -1
  · subst hidx
    cases hget : getAt s.squares s.currentTargetSquareIndex with
    | none =>
      simp [updateAndDrawCubeOnSquare, hget] at h
    | some currentSquare =>
      obtain ⟨newX, newY, hpos, hupd⟩ :=
        updateAndDrawCubeOnSquare_navigate squareSize s currentSquare direction hget
      rw [hupd] at h
      simp only [Option.some.injEq] at h
      subst h
      simp only
      obtain ⟨hcx, hcy⟩ := hl currentSquare (mem_of_getAt _ _ _ hget)
      split_ifs with hex
      · apply onLattice_snoc _ _ _ hl
        simp only
        split_ifs at hpos <;> simp only [Prod.mk.injEq] at hpos <;>
          obtain ⟨hx, hy⟩ := hpos <;> subst hx <;> subst hy
        · exact ⟨dvd_sub hcx (dvd_refl _), hcy⟩
        · exact ⟨dvd_add hcx (dvd_refl _), hcy⟩
        · exact ⟨hcx, dvd_sub hcy (dvd_refl _)⟩
        · exact ⟨hcx, dvd_add hcy (dvd_refl _)⟩
        · exact ⟨hcx, hcy⟩
      · exact hl
  · unfold updateAndDrawCubeOnSquare at h
    rw [if_neg hidx] at h
    simp only [Option.some.injEq] at h
    subst h
    exact hl

/-- Claim C13. Every tile lies on the lattice: after `generateSquares` both coordinates
of every tile are integer multiples of `squareSize`, and `addAdjacentSquare` and
`updateAndDrawCubeOnSquare` (every index and direction) keep a list on the lattice. -/
theorem tiles_on_lattice (squareSize : Int) :
    (∀ (rs : List ℚ) (out : List Square),
      generateSquares squareSize [] rs = some out → OnLattice squareSize out)
    ∧ (∀ (squares : List Square) (r1 r2 : ℚ) (out : List Square),
      OnLattice squareSize squares →
      addAdjacentSquare squareSize squares r1 r2 = some out → OnLattice squareSize out)
    ∧ (∀ (s : Scene) (squareIndex : Int) (direction : String) (out : Scene),
      OnLattice squareSize s.squares →
      updateAndDrawCubeOnSquare squareSize s squareIndex direction = some out →
      OnLattice squareSize out.squares) := by
  refine ⟨?_, ?_, ?_⟩
  · intro rs out h
    refine generateSquares_invariant squareSize (OnLattice squareSize) ?_ ?_ rs out h
    · intro sq hsq
      rw [List.mem_singleton.mp hsq]
      exact ⟨dvd_zero _, dvd_zero _⟩
    · intro squares r1 r2 next hl hadd
      exact addAdjacentSquare_onLattice squareSize squares r1 r2 next hl hadd
  · intro squares r1 r2 out hl h
    exact addAdjacentSquare_onLattice squareSize squares r1 r2 out hl h
  · intro s squareIndex direction out hl h
    exact updateAndDrawCubeOnSquare_onLattice squareSize s out squareIndex direction hl h

/-- Witness for C13: the layout built from `sampleDraws` with tile size 50 lies on the
lattice of multiples of 50. -/
theorem tiles_on_lattice_witness :
    generateSquares 50 [] sampleDraws = some sampleLayout ∧ OnLattice 50 sampleLayout :=
  ⟨generateSquares_sample,
    (tiles_on_lattice 50).1 sampleDraws sampleLayout generateSquares_sample⟩

/-! ## Rows and columns -/

/-- Claim C14. `findNearestSquare` never returns a tile whose perpendicular offset from
the current tile is `squareSize` or more; when the tiles and the current tile lie on the
lattice, a tile returned for left or right has the `relativeY` of the current tile and a
tile returned for up or down has its `relativeX`. -/
theorem findNearestSquare_same_line (squareSize : Int) (squares : List Square)
    (currentSquare : Square) (direction : String) (i : Nat) (sq : Square)
    (hres : findNearestSquare squareSize squares currentSquare direction = (i : Int))
    (hget : squares[i]? = some sq) :
    ((direction = "left" ∨ direction = "right") →
      |sq.relativeY - currentSquare.relativeY| < squareSize)
    ∧ ((direction = "up" ∨ direction = "down") →
      |sq.relativeX - currentSquare.relativeX| < squareSize)
    ∧ (OnLattice squareSize squares → squareSize ∣ currentSquare.relativeX →
        squareSize ∣ currentSquare.relativeY →
        ((direction = "left" ∨ direction = "right") →
          sq.relativeY = currentSquare.relativeY)
        ∧ ((direction = "up" ∨ direction = "down") →
          sq.relativeX = currentSquare.relativeX)) := by
  have hq : Qualifies squareSize currentSquare direction sq := by
    rcases findNearestSquare_cases squareSize squares currentSquare direction with
      ⟨hneg, _⟩ | ⟨j, sq0, hj, hget0, hq0⟩
    · rw [hneg] at hres
      omega
    · rw [hj] at hres
      have hji : j = i := by exact_mod_cast hres
      subst hji
      rw [hget] at hget0
      cases hget0
      exact hq0
  have hrow : (direction = "left" ∨ direction = "right") →
      |sq.relativeY - currentSquare.relativeY| < squareSize := by
    intro hd
    rcases hq with ⟨_, _, h⟩ | ⟨_, _, h⟩ | ⟨hu, _, _⟩ | ⟨hu, _, _⟩
    · exact h
    · exact h
    · rcases hd with hd | hd <;> rw [hd] at hu <;> exact absurd hu (by decide)
    · rcases hd with hd | hd <;> rw [hd] at hu <;> exact absurd hu (by decide)
  have hcol : (direction = "up" ∨ direction = "down") →
      |sq.relativeX - currentSquare.relativeX| < squareSize := by
    intro hd
    rcases hq with ⟨hu, _, _⟩ | ⟨hu, _, _⟩ | ⟨_, _, h⟩ | ⟨_, _, h⟩
    · rcases hd with hd | hd <;> rw [hd] at hu <;> exact absurd hu (by decide)
    · rcases hd with hd | hd <;> rw [hd] at hu <;> exact absurd hu (by decide)
    · exact h
    · exact h
  refine ⟨hrow, hcol, ?_⟩
  intro hl hcx hcy
  obtain ⟨hsx, hsy⟩ := hl sq (List.getElem?_mem hget)
  constructor
  · intro hd
    have := Int.eq_zero_of_abs_lt_dvd (dvd_sub hsy hcy) (hrow hd)
    omega
  · intro hd
    have := Int.eq_zero_of_abs_lt_dvd (dvd_sub hsx hcx) (hcol hd)
    omega

/-- Witness for C14: with tiles `(0,0)` (current), `(50,0)`, `(50,50)`, direction right
and tile size 50, the tile returned is the one at `(50,0)`, in the row of the current
tile. -/
theorem findNearestSquare_same_line_witness :
    findNearestSquare 50
        [{ relativeX := 0, relativeY := 0 }, { relativeX := 50, relativeY := 0 },
          { relativeX := 50, relativeY := 50 }] { relativeX := 0, relativeY := 0 } "right"
      = ((1 : Nat) : Int)
    ∧ [({ relativeX := 0, relativeY := 0 } : Square), { relativeX := 50, relativeY := 0 },
        { relativeX := 50, relativeY := 50 }][1]? = some { relativeX := 50, relativeY := 0 }
    ∧ |({ relativeX := 50, relativeY := 0 } : Square).relativeY
        - ({ relativeX := 0, relativeY := 0 } : Square).relativeY| < 50 :=
  ⟨by decide, by decide,
    (findNearestSquare_same_line 50
      [{ relativeX := 0, relativeY := 0 }, { relativeX := 50, relativeY := 0 },
        { relativeX := 50, relativeY := 50 }] { relativeX := 0, relativeY := 0 } "right" 1
      { relativeX := 50, relativeY := 0 } (by decide) (by decide)).1 (Or.inr rfl)⟩

/-- A tile one `squareSize` away along `direction`, in the row or column of the current
tile, qualifies. -/
theorem qualifies_of_neighbour (squareSize : Int) (hsz : 0 < squareSize)
    (currentSquare sq : Square) (direction : String)
    (h : (direction = "left" ∧ sq.relativeX = currentSquare.relativeX - squareSize
          ∧ sq.relativeY = currentSquare.relativeY)
      ∨ (direction = "right" ∧ sq.relativeX = currentSquare.relativeX + squareSize
          ∧ sq.relativeY = currentSquare.relativeY)
      ∨ (direction = "up" ∧ sq.relativeX = currentSquare.relativeX
          ∧ sq.relativeY = currentSquare.relativeY - squareSize)
      ∨ (direction = "down" ∧ sq.relativeX = currentSquare.relativeX
          ∧ sq.relativeY = currentSquare.relativeY + squareSize)) :
    Qualifies squareSize currentSquare direction sq := by
  rcases h with ⟨hd, hx, hy⟩ | ⟨hd, hx, hy⟩ | ⟨hd, hx, hy⟩ | ⟨hd, hx, hy⟩
  · refine Or.inl ⟨hd, by omega, ?_⟩
    rw [hy, sub_self, abs_zero]; exact hsz
  · refine Or.inr (Or.inl ⟨hd, by omega, ?_⟩)
    rw [hy, sub_self, abs_zero]; exact hsz
  · refine Or.inr (Or.inr (Or.inl ⟨hd, by omega, ?_⟩))
    rw [hx, sub_self, abs_zero]; exact hsz
  · refine Or.inr (Or.inr (Or.inr ⟨hd, by omega, ?_⟩))
    rw [hx, sub_self, abs_zero]; exact hsz

/-- Claim C18. From the keyboard handler the reuse branch of `updateAndDrawCubeOnSquare`
is not reached: with `squareSize > 0`, a current tile read from the list and a direction
among left, right, up, down, if `findNearestSquare` returns `-1` then no tile is at the
position one `squareSize` from the current tile in that direction, so the call
`updateAndDrawCubeOnSquare(-1, direction)` that follows appends exactly one red tile
there and makes it active; `keyBoardEvents` does so for the arrow key of that
direction. -/
theorem no_nearest_appends_tile (squareSize : Int) (hsz : 0 < squareSize) (s : Scene)
    (currentSquare : Square) (direction : String)
    (hcur : getAt s.squares s.currentTargetSquareIndex = some currentSquare)
    (hdir : direction = "left" ∨ direction = "right" ∨ direction = "up"
      ∨ direction = "down")
    (hres : findNearestSquare squareSize s.squares currentSquare direction = -1) :
    ∃ newX newY : Int,
      ((direction = "left" ∧ newX = currentSquare.relativeX - squareSize
          ∧ newY = currentSquare.relativeY)
        ∨ (direction = "right" ∧ newX = currentSquare.relativeX + squareSize
          ∧ newY = currentSquare.relativeY)
        ∨ (direction = "up" ∧ newX = currentSquare.relativeX
          ∧ newY = currentSquare.relativeY - squareSize)
        ∨ (direction = "down" ∧ newX = currentSquare.relativeX
          ∧ newY = currentSquare.relativeY + squareSize))
      ∧ (∀ sq ∈ s.squares, ¬ (sq.relativeX = newX ∧ sq.relativeY = newY))
      ∧ updateAndDrawCubeOnSquare squareSize s
          (findNearestSquare squareSize s.squares currentSquare direction) direction =
          some { squares := s.squares
                    ++ [{ relativeX := newX, relativeY := newY, color := some "red" }]
                 currentTargetSquareIndex := (s.squares.length : Int) }
      ∧ ∀ key, keyDirection key = some direction →
          keyBoardEvents squareSize s key =
            some { squares := s.squares
                      ++ [{ relativeX := newX, relativeY := newY, color := some "red" }]
                   currentTargetSquareIndex := (s.squares.length : Int) } := by
  have hnone : ∀ sq ∈ s.squares, ¬ Qualifies squareSize currentSquare direction sq := by
    rcases findNearestSquare_cases squareSize s.squares currentSquare direction with
      ⟨_, h⟩ | ⟨j, _, hj, _, _⟩
    · exact h
    · rw [hj] at hres
      omega
  obtain ⟨newX, newY, hpos, hupd⟩ :=
    updateAndDrawCubeOnSquare_navigate squareSize s currentSquare direction hcur
  have htarget : (direction = "left" ∧ newX = currentSquare.relativeX - squareSize
        ∧ newY = currentSquare.relativeY)
      ∨ (direction = "right" ∧ newX = currentSquare.relativeX + squareSize
        ∧ newY = currentSquare.relativeY)
      ∨ (direction = "up" ∧ newX = currentSquare.relativeX
        ∧ newY = currentSquare.relativeY - squareSize)
      ∨ (direction = "down" ∧ newX = currentSquare.relativeX
        ∧ newY = currentSquare.relativeY + squareSize) := by
    rcases hdir with h | h | h | h <;> subst h <;>
      simp only [String.reduceEq, if_true, if_false, Prod.mk.injEq] at hpos <;>
      simp [hpos.1, hpos.2]
  have hfree : ∀ sq ∈ s.squares, ¬ (sq.relativeX = newX ∧ sq.relativeY = newY) := by
    intro sq hsq hat
    apply hnone sq hsq
    apply qualifies_of_neighbour squareSize hsz
    rcases htarget with ⟨hd, hx, hy⟩ | ⟨hd, hx, hy⟩ | ⟨hd, hx, hy⟩ | ⟨hd, hx, hy⟩
    · exact Or.inl ⟨hd, by rw [hat.1, hx], by rw [hat.2, hy]⟩
    · exact Or.inr (Or.inl ⟨hd, by rw [hat.1, hx], by rw [hat.2, hy]⟩)
    · exact Or.inr (Or.inr (Or.inl ⟨hd, by rw [hat.1, hx], by rw [hat.2, hy]⟩))
    · exact Or.inr (Or.inr (Or.inr ⟨hd, by rw [hat.1, hx], by rw [hat.2, hy]⟩))
  obtain ⟨h1, h2⟩ := (navigate_to_position s newX newY).1 hfree
  have hfinal : updateAndDrawCubeOnSquare squareSize s
      (findNearestSquare squareSize s.squares currentSquare direction) direction =
      some { squares := s.squares
                ++ [{ relativeX := newX, relativeY := newY, color := some "red" }]
             currentTargetSquareIndex := (s.squares.length : Int) } := by
    rw [hres, hupd, h2, h1]
  refine ⟨newX, newY, htarget, hfree, hfinal, ?_⟩
  intro key hkey
  simp only [keyBoardEvents, hkey, hcur]
  exact hfinal

/-- Witness for C18: on the single origin tile nothing is found to the right, so the
right arrow key appends the red tile at `(50, 0)`. -/
theorem no_nearest_appends_tile_witness :
    (0 : Int) < 50
    ∧ findNearestSquare 50 [{ relativeX := 0, relativeY := 0 }]
        { relativeX := 0, relativeY := 0 } "right" = -1
    ∧ ∃ newX newY : Int,
      (("right" = "left" ∧ newX = (0 : Int) - 50 ∧ newY = (0 : Int))
        ∨ ("right" = "right" ∧ newX = (0 : Int) + 50 ∧ newY = (0 : Int))
        ∨ ("right" = "up" ∧ newX = (0 : Int) ∧ newY = (0 : Int) - 50)
        ∨ ("right" = "down" ∧ newX = (0 : Int) ∧ newY = (0 : Int) + 50))
      ∧ (∀ sq ∈ [({ relativeX := 0, relativeY := 0 } : Square)],
          ¬ (sq.relativeX = newX ∧ sq.relativeY = newY))
      ∧ updateAndDrawCubeOnSquare 50
          { squares := [{ relativeX := 0, relativeY := 0 }], currentTargetSquareIndex := 0 }
          (findNearestSquare 50 [{ relativeX := 0, relativeY := 0 }]
            { relativeX := 0, relativeY := 0 } "right") "right" =
          some { squares := [{ relativeX := 0, relativeY := 0 }]
                    ++ [{ relativeX := newX, relativeY := newY, color := some "red" }]
                 currentTargetSquareIndex := 1 }
      ∧ ∀ key, keyDirection key = some "right" →
          keyBoardEvents 50
            { squares := [{ relativeX := 0, relativeY := 0 }], currentTargetSquareIndex := 0 }
            key =
            some { squares := [{ relativeX := 0, relativeY := 0 }]
                      ++ [{ relativeX := newX, relativeY := newY, color := some "red" }]
                   currentTargetSquareIndex := 1 } :=
  ⟨by decide, by decide,
    no_nearest_appends_tile 50 (by decide)
      { squares := [{ relativeX := 0, relativeY := 0 }], currentTargetSquareIndex := 0 }
      { relativeX := 0, relativeY := 0 } "right" (by decide) (by decide) (by decide)⟩

/-! ## Fill and stroke of the cube faces -/

section FaceLoop

variable {α : Type} [LinearOrderedField α]

theorem drawFace_of_neg (cos sin : α → α) (fov xAngle yAngle : α)
    (vertices : Fin 8 → Point3 α) (centerX centerY : α) (face : Fin 4 → Fin 8)
    (h : (faceNormal cos sin fov xAngle yAngle vertices face).2.2 < 0) :
    ∃ x0 y0 x1 y1 x2 y2 x3 y3 : α,
      drawFace cos sin fov xAngle yAngle vertices centerX centerY face =
        [CanvasOp.beginPath, CanvasOp.moveTo x0 y0, CanvasOp.lineTo x1 y1,
          CanvasOp.lineTo x2 y2, CanvasOp.lineTo x3 y3, CanvasOp.closePath,
          CanvasOp.stroke, CanvasOp.fillStyle "rgba(0, 255, 255, 1)", CanvasOp.fill] := by
  simp only [drawFace, if_pos h, List.map, List.cons_append, List.nil_append]
  exact ⟨_, _, _, _, _, _, _, _, rfl⟩

theorem drawFace_of_not_neg (cos sin : α → α) (fov xAngle yAngle : α)
    (vertices : Fin 8 → Point3 α) (centerX centerY : α) (face : Fin 4 → Fin 8)
    (h : ¬ (faceNormal cos sin fov xAngle yAngle vertices face).2.2 < 0) :
    drawFace cos sin fov xAngle yAngle vertices centerX centerY face =
      [CanvasOp.fillStyle "rgba(0, 255, 255, 1)", CanvasOp.fill] := by
  simp only [drawFace, if_neg h, List.nil_append]

theorem drawFace_fill (cos sin : α → α) (fov xAngle yAngle : α)
    (vertices : Fin 8 → Point3 α) (centerX centerY : α) (face : Fin 4 → Fin 8) :
    (drawFace cos sin fov xAngle yAngle vertices centerX centerY face).filter CanvasOp.isFill
      = [CanvasOp.fill] := by
  by_cases h : (faceNormal cos sin fov xAngle yAngle vertices face).2.2 < 0
  · obtain ⟨x0, y0, x1, y1, x2, y2, x3, y3, heq⟩ :=
      drawFace_of_neg cos sin fov xAngle yAngle vertices centerX centerY face h
    rw [heq]
    rfl
  · rw [drawFace_of_not_neg cos sin fov xAngle yAngle vertices centerX centerY face h]
    rfl

theorem drawFace_stroke (cos sin : α → α) (fov xAngle yAngle : α)
    (vertices : Fin 8 → Point3 α) (centerX centerY : α) (face : Fin 4 → Fin 8) :
    (drawFace cos sin fov xAngle yAngle vertices centerX centerY face).filter CanvasOp.isStroke
      = if (faceNormal cos sin fov xAngle yAngle vertices face).2.2 < 0
        then [CanvasOp.stroke] else [] := by
  by_cases h : (faceNormal cos sin fov xAngle yAngle vertices face).2.2 < 0
  · obtain ⟨x0, y0, x1, y1, x2, y2, x3, y3, heq⟩ :=
      drawFace_of_neg cos sin fov xAngle yAngle vertices centerX centerY face h
    rw [heq, if_pos h]
    rfl
  · rw [drawFace_of_not_neg cos sin fov xAngle yAngle vertices centerX centerY face h,
      if_neg h]
    rfl

theorem faceLoop_fill_count (cos sin : α → α) (fov xAngle yAngle : α)
    (vertices : Fin 8 → Point3 α) (centerX centerY : α) (fs : List (Fin 4 → Fin 8)) :
    ((fs.flatMap (drawFace cos sin fov xAngle yAngle vertices centerX centerY)).filter
      CanvasOp.isFill).length = fs.length := by
  induction fs with
  | nil => rfl
  | cons face rest ih =>
    rw [List.flatMap_cons, List.filter_append, List.length_append, ih, drawFace_fill]
    simp [Nat.add_comm]

theorem faceLoop_stroke_count (cos sin : α → α) (fov xAngle yAngle : α)
    (vertices : Fin 8 → Point3 α) (centerX centerY : α) (fs : List (Fin 4 → Fin 8)) :
    ((fs.flatMap (drawFace cos sin fov xAngle yAngle vertices centerX centerY)).filter
      CanvasOp.isStroke).length =
      (fs.map fun face =>
        decide ((faceNormal cos sin fov xAngle yAngle vertices face).2.2 < 0)).count true := by
  induction fs with
  | nil => rfl
  | cons face rest ih =>
    rw [List.flatMap_cons, List.filter_append, List.length_append, ih, drawFace_stroke,
      List.map_cons, List.count_cons]
    by_cases h : (faceNormal cos sin fov xAngle yAngle vertices face).2.2 < 0
    · simp [h, Nat.add_comm]
    · simp [h]

/-- Claim C17. For every scene with a defined active tile, `drawCube` emits the calls
of the six faces in face-list order; every face gets exactly one fill, as its last call,
whatever the cull test says (six fills in all); a face whose projected normal has
z-component `< 0` gets a path (begin, move, three lines, close) and a stroke, and any
other face gets neither, so the strokes are as many as the faces passing the test. -/
theorem drawCube_fill_and_stroke (cos sin : α → α) (fov xAngle yAngle zAngle : α)
    (s : Scene) (targetSquare : Square) (centerX centerY sideLength : α)
    (hcur : getAt s.squares s.currentTargetSquareIndex = some targetSquare) :
    drawCube cos sin fov xAngle yAngle zAngle s centerX centerY sideLength =
      some (faces.flatMap
        (drawFace cos sin fov xAngle yAngle
          (cubeVertices cos sin targetSquare sideLength zAngle) centerX centerY))
    ∧ faces.length = 6
    ∧ (∀ face : Fin 4 → Fin 8,
        ((drawFace cos sin fov xAngle yAngle
            (cubeVertices cos sin targetSquare sideLength zAngle) centerX centerY face).filter
          CanvasOp.isFill = [CanvasOp.fill])
        ∧ ((faceNormal cos sin fov xAngle yAngle
              (cubeVertices cos sin targetSquare sideLength zAngle) face).2.2 < 0 →
            ∃ x0 y0 x1 y1 x2 y2 x3 y3 : α,
              drawFace cos sin fov xAngle yAngle
                (cubeVertices cos sin targetSquare sideLength zAngle) centerX centerY face =
              [CanvasOp.beginPath, CanvasOp.moveTo x0 y0, CanvasOp.lineTo x1 y1,
                CanvasOp.lineTo x2 y2, CanvasOp.lineTo x3 y3, CanvasOp.closePath,
                CanvasOp.stroke, CanvasOp.fillStyle "rgba(0, 255, 255, 1)", CanvasOp.fill])
        ∧ (¬ (faceNormal cos sin fov xAngle yAngle
              (cubeVertices cos sin targetSquare sideLength zAngle) face).2.2 < 0 →
            drawFace cos sin fov xAngle yAngle
              (cubeVertices cos sin targetSquare sideLength zAngle) centerX centerY face =
            [CanvasOp.fillStyle "rgba(0, 255, 255, 1)", CanvasOp.fill]))
    ∧ ∃ ops, drawCube cos sin fov xAngle yAngle zAngle s centerX centerY sideLength = some ops
        ∧ (ops.filter CanvasOp.isFill).length = 6
        ∧ (ops.filter CanvasOp.isStroke).length =
            (strokedFaces cos sin fov xAngle yAngle zAngle targetSquare sideLength).count true
        ∧ (ops.filter CanvasOp.isStroke).length ≤ 6 := by
  have hdraw : drawCube cos sin fov xAngle yAngle zAngle s centerX centerY sideLength =
      some (faces.flatMap
        (drawFace cos sin fov xAngle yAngle
          (cubeVertices cos sin targetSquare sideLength zAngle) centerX centerY)) := by
    simp only [drawCube, hcur]
  have hstroke := faceLoop_stroke_count cos sin fov xAngle yAngle
    (cubeVertices cos sin targetSquare sideLength zAngle) centerX centerY faces
  refine ⟨hdraw, rfl, ?_, _, hdraw, ?_, ?_, ?_⟩
  · intro face
    exact ⟨drawFace_fill _ _ _ _ _ _ _ _ _, drawFace_of_neg _ _ _ _ _ _ _ _ _,
      drawFace_of_not_neg _ _ _ _ _ _ _ _ _⟩
  · rw [faceLoop_fill_count]
    rfl
  · rw [hstroke]
    rfl
  · rw [hstroke]
    exact le_trans (List.count_le_length _ _) (by rw [List.length_map]; exact le_refl 6)

end FaceLoop

/-- Witness for C17: the cube on the origin tile in the initial pose, drawn at centre
`(0, 0)`: six fills and one stroke. -/
theorem drawCube_fill_and_stroke_witness :
    getAt [({ relativeX := 0, relativeY := 0 } : Square)] 0
      = some { relativeX := 0, relativeY := 0 }
    ∧ ∃ ops,
        drawCube Real.cos Real.sin (500 : ℝ) 0 0 0
          { squares := [{ relativeX := 0, relativeY := 0 }], currentTargetSquareIndex := 0 }
          0 0 16 = some ops
        ∧ (ops.filter CanvasOp.isFill).length = 6
        ∧ (ops.filter CanvasOp.isStroke).length =
            (strokedFaces Real.cos Real.sin (500 : ℝ) 0 0 0
              { relativeX := 0, relativeY := 0 } 16).count true
        ∧ (ops.filter CanvasOp.isStroke).length ≤ 6 :=
  ⟨rfl,
    (drawCube_fill_and_stroke Real.cos Real.sin (500 : ℝ) 0 0 0
      { squares := [{ relativeX := 0, relativeY := 0 }], currentTargetSquareIndex := 0 }
      { relativeX := 0, relativeY := 0 } 0 0 16 rfl).2.2.2⟩

/-! ## Progress of the layout loop -/

theorem addAdjacentSquare_origin_left (squareSize : Int) :
    addAdjacentSquare squareSize [{ relativeX := 0, relativeY := 0 }] 0 0 =
      some (if squareSize = 0 then [{ relativeX := 0, relativeY := 0 }]
        else [{ relativeX := 0, relativeY := 0 }, { relativeX := -squareSize, relativeY := 0 }]) := by
  by_cases h : squareSize = 0
  · simp [addAdjacentSquare, getAt, adjacentPositions, Rat.floor, h]
  · simp [addAdjacentSquare, getAt, adjacentPositions, Rat.floor, h]

theorem addAdjacentSquare_pair_left (squareSize : Int) :
    addAdjacentSquare squareSize
        [{ relativeX := 0, relativeY := 0 }, { relativeX := -squareSize, relativeY := 0 }] 0 0 =
      some [{ relativeX := 0, relativeY := 0 }, { relativeX := -squareSize, relativeY := 0 }] := by
  simp [addAdjacentSquare, getAt, adjacentPositions, Rat.floor]

/-- From the origin tile alone or with its left neighbour, drawing base tile `0` and the
left offset over and over stays within these two lists. -/
theorem addAdjacentSquares_left_stays (squareSize : Int) (n : Nat) :
    (∃ out, addAdjacentSquares squareSize [{ relativeX := 0, relativeY := 0 }]
        (List.replicate n (0, 0)) = some out
      ∧ (out = [{ relativeX := 0, relativeY := 0 }]
        ∨ out = [{ relativeX := 0, relativeY := 0 },
            { relativeX := -squareSize, relativeY := 0 }]))
    ∧ addAdjacentSquares squareSize
        [{ relativeX := 0, relativeY := 0 }, { relativeX := -squareSize, relativeY := 0 }]
        (List.replicate n (0, 0)) =
      some [{ relativeX := 0, relativeY := 0 }, { relativeX := -squareSize, relativeY := 0 }] := by
  induction n with
  | zero => exact ⟨⟨_, rfl, Or.inl rfl⟩, rfl⟩
  | succ n ih =>
    obtain ⟨⟨out, hout, hcases⟩, hpair⟩ := ih
    constructor
    · simp only [List.replicate_succ, addAdjacentSquares, addAdjacentSquare_origin_left]
      by_cases h : squareSize = 0
      · rw [if_pos h]
        exact ⟨out, hout, hcases⟩
      · rw [if_neg h]
        exact ⟨_, hpair, Or.inr rfl⟩
    · simp only [List.replicate_succ, addAdjacentSquares, addAdjacentSquare_pair_left]
      exact hpair

theorem generateLoop_left_not_exited (squareSize additionalSquares : Int)
    (hadd : 9 ≤ additionalSquares) (n : Nat) :
    generateLoop squareSize additionalSquares (List.replicate (2 * n) 0)
        [{ relativeX := 0, relativeY := 0 }] = none
    ∧ generateLoop squareSize additionalSquares (List.replicate (2 * n) 0)
        [{ relativeX := 0, relativeY := 0 }, { relativeX := -squareSize, relativeY := 0 }]
      = none := by
  induction n with
  | zero =>
    constructor <;> simp [generateLoop] <;> omega
  | succ n ih =>
    have hrep : List.replicate (2 * (n + 1)) (0 : ℚ) = 0 :: 0 :: List.replicate (2 * n) 0 := by
      rw [show 2 * (n + 1) = (2 * n + 1) + 1 by ring, List.replicate_succ,
        List.replicate_succ]
    rw [hrep]
    constructor
    · have hlt : (([{ relativeX := 0, relativeY := 0 }] : List Square).length : Int)
          < additionalSquares + 1 := by
        simp only [List.length_singleton, Nat.cast_one]; omega
      simp only [generateLoop, if_pos hlt, addAdjacentSquare_origin_left]
      by_cases h : squareSize = 0
      · rw [if_pos h]; exact ih.1
      · rw [if_neg h]; exact ih.2
    · have hlt : (([{ relativeX := 0, relativeY := 0 },
          { relativeX := -squareSize, relativeY := 0 }] : List Square).length : Int)
          < additionalSquares + 1 := by
        simp only [List.length_cons, List.length_singleton, List.length_nil]; omega
      simp only [generateLoop, if_pos hlt, addAdjacentSquare_pair_left]
      exact ih.2

/-- Claim C16. Layout generation has no worst-case iteration bound: for every `n`, the
`n` draws that always pick base tile `0` and the left offset take `addAdjacentSquare`
from the single origin tile to a list of at most 2 tiles (exactly the origin and its
left neighbour once `n ≥ 1` and `squareSize ≠ 0`), below the smallest target of 10;
on these draws the loop of `generateSquares` has not exited, whatever the count draw in
`[0, 1)`. -/
theorem generateSquares_unbounded (squareSize : Int) (n : Nat) :
    (∃ out, addAdjacentSquares squareSize [{ relativeX := 0, relativeY := 0 }]
        (List.replicate n (0, 0)) = some out
      ∧ out.length ≤ 2 ∧ out.length < 10
      ∧ (squareSize ≠ 0 → 0 < n →
          out = [{ relativeX := 0, relativeY := 0 },
            { relativeX := -squareSize, relativeY := 0 }]))
    ∧ (∀ additionalSquares : Int, 9 ≤ additionalSquares →
        generateLoop squareSize additionalSquares (List.replicate (2 * n) 0)
          [{ relativeX := 0, relativeY := 0 }] = none)
    ∧ (∀ r : ℚ, 0 ≤ r → r < 1 →
        generateSquares squareSize [] (r :: List.replicate (2 * n) 0) = none) := by
  refine ⟨?_, ?_, ?_⟩
  · obtain ⟨out, hout, hcases⟩ := (addAdjacentSquares_left_stays squareSize n).1
    refine ⟨out, hout, ?_, ?_, ?_⟩
    · rcases hcases with h | h <;> rw [h] <;> simp
    · rcases hcases with h | h <;> rw [h] <;> simp
    · intro hsz hn
      obtain ⟨m, rfl⟩ : ∃ m, n = m + 1 := ⟨n - 1, by omega⟩
      simp only [List.replicate_succ, addAdjacentSquares, addAdjacentSquare_origin_left,
        if_neg hsz] at hout
      rw [(addAdjacentSquares_left_stays squareSize m).2] at hout
      exact (Option.some.inj hout).symm
  · intro additionalSquares hadd
    exact (generateLoop_left_not_exited squareSize additionalSquares hadd n).1
  · intro r h0 h1
    have hb := floor_mul_bounds r 25 h0 h1 (by norm_num)
    simp only [Nat.cast_ofNat] at hb
    simp only [generateSquares, List.nil_append]
    exact (generateLoop_left_not_exited squareSize _ (by omega) n).1

/-- Witness for C16: with tile size 50, count draw `0` and 100 pairs of draws of base
tile `0` and the left offset, `generateSquares` has not exited. -/
theorem generateSquares_unbounded_witness :
    (0 : ℚ) ≤ 0 ∧ (0 : ℚ) < 1
    ∧ generateSquares 50 [] (0 :: List.replicate (2 * 100) 0) = none :=
  ⟨le_refl 0, by norm_num,
    (generateSquares_unbounded 50 100).2.2 0 (le_refl 0) (by norm_num)⟩

theorem floor_eq_of_bounds (r : ℚ) (z : Int) (h1 : (z : ℚ) ≤ r) (h2 : r < (z : ℚ) + 1) :
    Rat.floor r = z := by
  have hle : z ≤ Rat.floor r := Rat.le_floor.mpr h1
  have hlt : ¬ (z + 1 ≤ Rat.floor r) := by
    rw [Rat.le_floor]
    push_cast
    linarith
  omega

theorem getAt_floor_div (squares : List Square) (i : Nat) (sq : Square)
    (h : squares[i]? = some sq) :
    getAt squares (Rat.floor (((i : ℚ) / (squares.length : ℚ)) * squares.length)) = some sq := by
  have hi := lt_length_of_getElem? _ _ _ h
  have hpos : (0 : ℚ) < (squares.length : ℚ) := by exact_mod_cast (by omega : 0 < squares.length)
  have hval : ((i : ℚ) / (squares.length : ℚ)) * squares.length = ((i : Int) : ℚ) := by
    rw [div_mul_cancel₀ _ (ne_of_gt hpos)]
    simp
  rw [hval, floor_eq_of_bounds _ (i : Int) (le_refl _) (by linarith), getAt_natCast]
  exact h

theorem exists_max_tile (squareSize : Int) (squares : List Square) (hne : squares ≠ []) :
    ∃ i : Nat, ∃ base, squares[i]? = some base
      ∧ ∀ sq ∈ squares, squareSize * sq.relativeX ≤ squareSize * base.relativeX := by
  have hfin : squares.toFinset.Nonempty := by
    obtain ⟨x, hx⟩ := List.exists_mem_of_ne_nil squares hne
    exact ⟨x, List.mem_toFinset.mpr hx⟩
  obtain ⟨base, hbase, hmax⟩ :=
    Finset.exists_max_image squares.toFinset (fun sq => squareSize * sq.relativeX) hfin
  obtain ⟨i, hi⟩ := List.mem_iff_getElem?.mp (List.mem_toFinset.mp hbase)
  exact ⟨i, base, hi, fun sq hsq => hmax sq (List.mem_toFinset.mpr hsq)⟩

theorem addAdjacentSquare_keeps_tiles (squareSize : Int) (squares : List Square) (r1 r2 : ℚ)
    (out : List Square) (h : addAdjacentSquare squareSize squares r1 r2 = some out) :
    squares <+: out := by
  obtain ⟨_, _, _, _, h | ⟨h, _⟩⟩ := addAdjacentSquare_cases squareSize squares r1 r2 out h
  · rw [h]
  · rw [h]; exact List.prefix_append _ _

theorem addAdjacentSquare_total (squareSize : Int) (squares : List Square) (r1 r2 : ℚ)
    (hne : squares ≠ []) (h10 : 0 ≤ r1) (h11 : r1 < 1) (h20 : 0 ≤ r2) (h21 : r2 < 1) :
    ∃ out, addAdjacentSquare squareSize squares r1 r2 = some out := by
  have hlen : 0 < squares.length := List.length_pos.mpr hne
  have hb1 := floor_mul_bounds r1 squares.length h10 h11 hlen
  have hb2 := floor_mul_bounds r2 (adjacentPositions squareSize).length h20 h21
    (by simp [adjacentPositions])
  obtain ⟨baseSquare, hbase⟩ := (getAt_isSome_iff squares _).mpr ⟨hb1.1, by omega⟩
  obtain ⟨position, hposn⟩ :=
    (getAt_isSome_iff (adjacentPositions squareSize) _).mpr ⟨hb2.1, by omega⟩
  simp only [addAdjacentSquare, hbase, hposn]
  split_ifs
  · exact ⟨_, rfl⟩
  · exact ⟨_, rfl⟩

/-- Claim C20. Layout generation can always make progress: for every non-empty tile list
there are a base tile index `i` and an offset index `k` (draws `i / length` and `k / 8`)
for which `addAdjacentSquare` appends a new tile; and on every pair of draws in `[0, 1)`
`addAdjacentSquare` returns, keeping the existing tiles as a prefix and changing the
count by 0 or 1. -/
theorem addAdjacentSquare_progress (squareSize : Int) (hsz : squareSize ≠ 0)
    (squares : List Square) (hne : squares ≠ []) :
    (∃ i k : Nat, i < squares.length ∧ k < 8 ∧ ∃ newSquare,
        addAdjacentSquare squareSize squares ((i : ℚ) / (squares.length : ℚ)) ((k : ℚ) / 8)
          = some (squares ++ [newSquare])
        ∧ (squares ++ [newSquare]).length = squares.length + 1)
    ∧ (∀ (r1 r2 : ℚ), 0 ≤ r1 → r1 < 1 → 0 ≤ r2 → r2 < 1 →
        ∃ out, addAdjacentSquare squareSize squares r1 r2 = some out)
    ∧ (∀ (r1 r2 : ℚ) (out : List Square),
        addAdjacentSquare squareSize squares r1 r2 = some out →
        squares <+: out
        ∧ (out.length = squares.length ∨ out.length = squares.length + 1)) := by
  refine ⟨?_, ?_, ?_⟩
  · obtain ⟨i, base, hget, hmax⟩ := exists_max_tile squareSize squares hne
    have hi := lt_length_of_getElem? _ _ _ hget
    refine ⟨i, 1, hi, by norm_num,
      ({ relativeX := base.relativeX + squareSize, relativeY := base.relativeY + 0 } : Square),
      ?_, by simp⟩
    have hbase := getAt_floor_div squares i base hget
    have hoff : getAt (adjacentPositions squareSize)
        (Rat.floor ((((1 : Nat) : ℚ) / 8) * (adjacentPositions squareSize).length))
        = some { dx := squareSize, dy := 0 } := by
      simp [adjacentPositions, getAt, Rat.floor]
    have hfree : (squares.any fun square =>
        square.relativeX == base.relativeX + squareSize
          && square.relativeY == base.relativeY + 0) = false := by
      rw [List.any_eq_false]
      intro sq hsq hpos
      simp only [Bool.and_eq_true, beq_iff_eq] at hpos
      have h1 := hmax sq hsq
      rw [hpos.1] at h1
      have hsq2 : 0 < squareSize * squareSize := mul_self_pos.mpr hsz
      nlinarith
    simp only [addAdjacentSquare, hbase, hoff, hfree]
    rfl
  · intro r1 r2 h10 h11 h20 h21
    exact addAdjacentSquare_total squareSize squares r1 r2 hne h10 h11 h20 h21
  · intro r1 r2 out h
    exact ⟨addAdjacentSquare_keeps_tiles squareSize squares r1 r2 out h,
      addAdjacentSquare_length squareSize squares r1 r2 out h⟩

/-- Witness for C20: on the single origin tile with tile size 50 some draw appends a
tile. -/
theorem addAdjacentSquare_progress_witness :
    (50 : Int) ≠ 0 ∧ [({ relativeX := 0, relativeY := 0 } : Square)] ≠ []
    ∧ ∃ i k : Nat, i < [({ relativeX := 0, relativeY := 0 } : Square)].length ∧ k < 8
        ∧ ∃ newSquare,
          addAdjacentSquare 50 [{ relativeX := 0, relativeY := 0 }]
            ((i : ℚ) / ([({ relativeX := 0, relativeY := 0 } : Square)].length : ℚ))
            ((k : ℚ) / 8)
            = some ([{ relativeX := 0, relativeY := 0 }] ++ [newSquare])
          ∧ ([({ relativeX := 0, relativeY := 0 } : Square)] ++ [newSquare]).length
            = [({ relativeX := 0, relativeY := 0 } : Square)].length + 1 :=
  ⟨by decide, by simp,
    (addAdjacentSquare_progress 50 (by decide) [{ relativeX := 0, relativeY := 0 }]
      (by simp)).1⟩

/-! ## Scaling under binary64 rounding -/

theorem int_log_two_eq (r : ℚ) (n : Int) (h1 : (2 : ℚ) ^ n ≤ r) (h2 : r < (2 : ℚ) ^ (n + 1)) :
    Int.log 2 r = n := by
  have hr : 0 < r := lt_of_lt_of_le (by positivity) h1
  have hle : n ≤ Int.log 2 r := by
    have := (Int.zpow_le_iff_le_log (R := ℚ) (b := 2) (by norm_num) (x := n) hr).mp
      (by exact_mod_cast h1)
    exact this
  have hlt : Int.log 2 r < n + 1 := by
    have := (Int.lt_zpow_iff_log_lt (R := ℚ) (b := 2) (by norm_num) (x := n + 1) hr).mp
      (by exact_mod_cast h2)
    exact this
  omega

theorem int_log_two_zpow_mul (e : Int) (r : ℚ) (hr : 0 < r) :
    Int.log 2 ((2 : ℚ) ^ e * r) = e + Int.log 2 r := by
  apply int_log_two_eq
  · rw [zpow_add₀ (by norm_num : (2 : ℚ) ≠ 0)]
    have h := Int.zpow_log_le_self (R := ℚ) (b := 2) (by norm_num) hr
    have h2 : (0 : ℚ) < 2 ^ e := by positivity
    exact mul_le_mul_of_nonneg_left (by exact_mod_cast h) h2.le
  · rw [show e + Int.log 2 r + 1 = e + (Int.log 2 r + 1) by ring,
      zpow_add₀ (by norm_num : (2 : ℚ) ≠ 0)]
    have h := Int.lt_zpow_succ_log_self (R := ℚ) (b := 2) (by norm_num) r
    have h2 : (0 : ℚ) < 2 ^ e := by positivity
    exact mul_lt_mul_of_pos_left (by exact_mod_cast h) h2

/-- Rounding to binary64 commutes with scaling by a power of two. -/
theorem f64round_zpow_mul (e : Int) (q : ℚ) :
    f64round ((2 : ℚ) ^ e * q) = (2 : ℚ) ^ e * f64round q := by
  by_cases hq : q = 0
  · simp [f64round, hq]
  · have h2 : (2 : ℚ) ^ e ≠ 0 := by positivity
    have hne : (2 : ℚ) ^ e * q ≠ 0 := mul_ne_zero h2 hq
    have habs : |(2 : ℚ) ^ e * q| = (2 : ℚ) ^ e * |q| := by
      rw [abs_mul, abs_of_pos (by positivity : (0 : ℚ) < 2 ^ e)]
    simp only [f64round, if_neg hq, if_neg hne, habs,
      int_log_two_zpow_mul e |q| (abs_pos.mpr hq)]
    have hexp : (2 : ℚ) ^ (e + Int.log 2 |q| - 52) = 2 ^ e * 2 ^ (Int.log 2 |q| - 52) := by
      rw [show e + Int.log 2 |q| - 52 = e + (Int.log 2 |q| - 52) by ring,
        zpow_add₀ (by norm_num : (2 : ℚ) ≠ 0)]
    rw [hexp, mul_div_mul_left _ _ h2]
    ring

theorem f64sqrt_three : f64sqrt 3 = 3900231685776981 / 2251799813685248 := by
  have hlog : Int.log 2 (3 : ℚ) = 1 := int_log_two_eq 3 1 (by norm_num) (by norm_num)
  have hsqrt : Nat.sqrt 15576890575604482885591488987660288 = 124807413944863399 := by
    symm
    rw [Nat.eq_sqrt]
    constructor <;> norm_num
  have hfl : (Rat.floor (15576890575604482885591488987660288 : ℚ)).toNat
      = 15576890575604482885591488987660288 := by decide!
  have hround : f64round (249614827889726799 / 144115188075855872)
      = 3900231685776981 / 2251799813685248 := by decide!
  simp only [f64sqrt, hlog]
  norm_num only [hfl, hsqrt]
  rw [if_neg (by norm_num), if_neg (by norm_num)]
  exact hround

/-- The model's `Math.sqrt(3)` is the binary64 number nearest to the real square root
of 3: it is within half a unit in the last place, `2 ^ (-53)`. -/
theorem f64sqrt_three_nearest :
    |Real.sqrt 3 - ((f64sqrt 3 : ℚ) : ℝ)| < 1 / 9007199254740992 := by
  rw [f64sqrt_three, abs_lt]
  push_cast
  constructor
  · have h : (3900231685776981 / 2251799813685248 - 1 / 9007199254740992 : ℝ)
        < Real.sqrt 3 := by
      apply Real.lt_sqrt_of_sq_lt
      norm_num
    linarith
  · have h : Real.sqrt 3
        < (3900231685776981 / 2251799813685248 + 1 / 9007199254740992 : ℝ) := by
      rw [Real.sqrt_lt' (by norm_num)]
      norm_num
    linarith

theorem F64_sqrt_three : F64.sqrt 3 = ⟨3900231685776981 / 2251799813685248⟩ := by
  have h3 : f64round ((3 : Nat) : ℚ) = 3 := by decide!
  show (⟨f64sqrt (f64round ((3 : Nat) : ℚ))⟩ : F64) = _
  rw [h3, f64sqrt_three]

/-- Counterexample to C10 as stated: in binary64, at `p = (3, 0, 0)` and `k = 3`, the x of
`dimetricProjection((k·x, k·y, k·z))` is `7.794228634059947` and `k` times the x of
`dimetricProjection(p)` is `7.794228634059948`; they differ in the last bit. -/
theorem dimetricProjection_scaling_counterexample :
    (dimetricProjection F64.sqrt { x := 3 * 3, y := 3 * 0, z := 3 * 0 }).x
      = ⟨8775521292998207 / 1125899906842624⟩
    ∧ 3 * (dimetricProjection F64.sqrt { x := 3, y := 0, z := 0 }).x
      = ⟨137117520203097 / 17592186044416⟩
    ∧ (dimetricProjection F64.sqrt { x := 3 * 3, y := 3 * 0, z := 3 * 0 }).x
      ≠ 3 * (dimetricProjection F64.sqrt { x := 3, y := 0, z := 0 }).x := by
  simp only [dimetricProjection, F64_sqrt_three]
  decide!

theorem F64.val_add (a b : F64) : (a + b).val = f64round (a.val + b.val) := rfl

theorem F64.val_sub (a b : F64) : (a - b).val = f64round (a.val - b.val) := rfl

theorem F64.val_mul (a b : F64) : (a * b).val = f64round (a.val * b.val) := rfl

theorem F64.val_div (a b : F64) : (a / b).val = f64round (a.val / b.val) := rfl

/-- Claim C10, amended. `dimetricProjection(p)` is `((x - y) * √3 / 2, (x + y) / 2 - z)`.
In exact arithmetic (the reals) scaling the point by any `k` scales both projected
coordinates by `k`. As computed in binary64, with every operation rounded, scaling the
point by a power of two `2 ^ e` scales both projected coordinates by `2 ^ e` exactly
(overflow and underflow aside); for other scalars no exact equality is stated. -/
theorem dimetricProjection_scaling (x y z k : ℝ) (a b c : ℚ) (e : Int) :
    (dimetricProjection Real.sqrt { x := x, y := y, z := z } =
        { x := (x - y) * Real.sqrt 3 / 2, y := (x + y) / 2 - z }
      ∧ (dimetricProjection Real.sqrt { x := k * x, y := k * y, z := k * z }).x =
        k * (dimetricProjection Real.sqrt { x := x, y := y, z := z }).x
      ∧ (dimetricProjection Real.sqrt { x := k * x, y := k * y, z := k * z }).y =
        k * (dimetricProjection Real.sqrt { x := x, y := y, z := z }).y)
    ∧ (∀ p : Point3 F64,
        (dimetricProjection F64.sqrt p).x = (p.x - p.y) * F64.sqrt 3 / 2
        ∧ (dimetricProjection F64.sqrt p).y = (p.x + p.y) / 2 - p.z)
    ∧ (dimetricProjection F64.sqrt
          { x := ⟨2 ^ e * a⟩, y := ⟨2 ^ e * b⟩, z := ⟨2 ^ e * c⟩ }).x.val =
        2 ^ e * (dimetricProjection F64.sqrt { x := ⟨a⟩, y := ⟨b⟩, z := ⟨c⟩ }).x.val
    ∧ (dimetricProjection F64.sqrt
          { x := ⟨2 ^ e * a⟩, y := ⟨2 ^ e * b⟩, z := ⟨2 ^ e * c⟩ }).y.val =
        2 ^ e * (dimetricProjection F64.sqrt { x := ⟨a⟩, y := ⟨b⟩, z := ⟨c⟩ }).y.val := by
  refine ⟨⟨rfl, ?_, ?_⟩, fun p => ⟨rfl, rfl⟩, ?_, ?_⟩
  · simp only [dimetricProjection]
    ring
  · simp only [dimetricProjection]
    ring
  · simp only [dimetricProjection, F64.val_div, F64.val_mul, F64.val_sub]
    rw [← mul_sub, f64round_zpow_mul, mul_assoc, f64round_zpow_mul, mul_div_assoc,
      f64round_zpow_mul]
  · simp only [dimetricProjection, F64.val_div, F64.val_add, F64.val_sub]
    rw [← mul_add, f64round_zpow_mul, mul_div_assoc, f64round_zpow_mul, ← mul_sub,
      f64round_zpow_mul]

end Canvas
